import Mathlib

/-!
# VGADirectController: scanline producer, line-buffer pool and read-back path

A shallow embedding of `src/dispdrivers/vgadirectcontroller.{h,cpp}` (hardware build, the
code under `#ifndef USERSPACE`) and a verification of its specification.

Conventions of the embedding.

* A C++ `int` is an `Int`; `/` and `%` are the truncating `Int.tdiv` and `Int.tmod`, `&` is
  `Int.land` (two's complement).  The scanline counter `s_scanLine` is a 32-bit `int` that
  only the handler advances: the sum `s_scanLine + linesCount / 2` of lines 332 and 338
  wraps modulo `2^32` into `-2147483648..2147483647` (`wrapInt32`), as the compiled
  handler computes it.  All other arithmetic is exact.
* A pointer is an address (`Nat`, `0` is `nullptr`); a pointer to a table is an `Option`
  of the table it points to (`none` is `nullptr`).
* An operation that can fault (null dereference, out-of-bounds table access, release of a
  block that is not allocated, division by zero) returns `Option State`; `none` is the fault.
* The object's members, the class statics and the platform state the code touches (I2S1
  registers, heap, DMA descriptors, pixel memory) are the fields of one `State`.  Two ghost
  fields record what the platform was asked to do: the number of interrupt handlers
  installed and the list of rendering-callback invocations.
* The rendering callback is a function on pixel memory; it does not touch the controller.
* Code of the base class `VGABaseController` and macros of its header are not among the
  sources: they are parameters of the functions that call them, except
  `startGPIOStream`, which is a flag.  The platform allocator never fails.
* Left out, having no effect on the modelled state: `s_instance`, the choice of the CPU
  core (`CoreUsage::setBusiestCore`) and the cycle counting under
  `FABGLIB_VGAXCONTROLLER_PERFORMANCE_CHECK`.
-/

namespace fabgl

/-! ## Data model -/

/-- Byte-addressed memory holding the scanline buffers. -/
abbrev Memory := Nat → Nat

/-- The callback type
`typedef void (*DrawScanlineCallback)(void * arg, uint8_t * dest, int scanLine)`:
given `arg`, `dest` and `scanLine` it rewrites pixel memory. -/
abbrev DrawScanlineCallback := Nat → Nat → Int → Memory → Memory

/-- The two fields of a DMA descriptor (`lldesc_t`) the controller writes. -/
structure lldesc_t where
  buf : Nat
  eof : Nat
deriving DecidableEq, Repr

/-- The `I2S1` registers the controller reads and writes. -/
structure I2SRegs where
  int_st_out_eof : Bool
  out_eof_des_addr : Nat
  int_ena_out_eof : Bool
deriving DecidableEq, Repr

/-- The platform heap: the addresses of the live blocks and the next free address. -/
structure Heap where
  live : List Nat
  next : Nat
deriving DecidableEq, Repr

/-- What `m_lines` points to: the table block and its entries (line-buffer addresses). -/
structure LineTable where
  addr : Nat
  entries : List Nat
deriving DecidableEq, Repr

/-- What `s_DMALines` points to: the table block and its entries (descriptor addresses). -/
structure DMATable where
  addr : Nat
  entries : List Nat
deriving DecidableEq, Repr

/-- The members of the base class `VGABaseController` that the sources use. -/
structure VGABaseController where
  m_viewPortWidth : Int
  m_viewPortHeight : Int
  m_isr_handle : Option Nat
  m_doubleBufferOverDMA : Bool
  streamStarted : Bool
deriving DecidableEq, Repr

/-- One recorded invocation of the rendering callback: `(arg, dest, scanLine)`. -/
structure CallbackCall where
  arg : Nat
  dest : Nat
  scanLine : Int
deriving DecidableEq, Repr

/-- The controller, the class statics, the platform and the ghost record. -/
structure State where
  base : VGABaseController
  m_linesCount : Int
  m_lines : Option LineTable
  m_drawScanlineCallback : Option DrawScanlineCallback
  m_drawScanlineArg : Nat
  m_autoRun : Bool
  s_scanLine : Int
  s_VSync : Bool
  s_frameResetDesc : Nat
  s_DMALines : Option DMATable
  I2S1 : I2SRegs
  heap : Heap
  descs : Nat → lldesc_t
  mem : Memory
  intrAllocs : Nat
  calls : List CallbackCall

/-! ## Platform primitives -/

/-- Platform allocator `heap_caps_malloc`: hands out the next free address and marks the
block live; blocks never overlap. -/
def heap_caps_malloc (size : Nat) (h : Heap) : Nat × Heap :=
  (h.next, { live := h.next :: h.live, next := h.next + size + 1 })

/-- Platform `heap_caps_free` (also `delete`): a null pointer is ignored, a live block is
released, anything else is a fault. -/
def heap_caps_free (p : Nat) (h : Heap) : Option Heap :=
  if p = 0 then some h
  else if p ∈ h.live then some { h with live := h.live.erase p }
  else none

/-- Writing `int_clr` acknowledges the pending interrupt status
(`I2S1.int_clr.val = I2S1.int_st.val` and `I2S1.int_clr.val = 0xFFFFFFFF`). -/
def clearInterruptStatus (s : State) : State :=
  { s with I2S1 := { s.I2S1 with int_st_out_eof := false } }

/-- The hardware completes descriptor `desc` and raises `out_eof`. -/
def raiseOutEof (desc : Nat) (s : State) : State :=
  { s with I2S1 := { s.I2S1 with int_st_out_eof := true, out_eof_des_addr := desc } }

/-- Reading `table[i]` for a C++ `int` index: a fault outside the table. -/
def tableAt (entries : List Nat) (i : Int) : Option Nat :=
  if 0 ≤ i then entries[i.toNat]? else none

/-! ## The interrupt handler -/

/-- The value a 32-bit `int` holds after an addition whose exact result is `x`: the
representative of `x` modulo `2^32` in `-2^31 .. 2^31 - 1` (two's-complement wrap-around,
what the compiled handler does when the counter overflows). -/
def wrapInt32 (x : Int) : Int :=
  (x + 2147483648) % 4294967296 - 2147483648

/-- Line 332: `(s_scanLine + linesCount / 2) % viewPortHeight`, the sum in 32 bits. -/
def isrScanLine (scanLine linesCount viewPortHeight : Int) : Int :=
  (wrapInt32 (scanLine + linesCount.tdiv 2)).tmod viewPortHeight

/-- Line 334: `scanLine & (linesCount - 1)`. -/
def isrLineIndex (scanLine linesCount : Int) : Int :=
  Int.land scanLine (linesCount - 1)

/-- Lines 326-329: the frame-reset test of the handler. -/
def isrFrameReset (s : State) : State :=
  if s.I2S1.out_eof_des_addr = s.s_frameResetDesc then
    { s with s_scanLine := 0, s_VSync := false }
  else s

/-- Lines 338-341: advance the counter (`s_scanLine += linesCount / 2`, in 32 bits) and
raise the vertical-sync flag. -/
def isrAdvance (linesCount viewPortHeight : Int) (s : State) : State :=
  let s1 := { s with s_scanLine := wrapInt32 (s.s_scanLine + linesCount.tdiv 2) }
  if s1.s_scanLine ≥ viewPortHeight then { s1 with s_VSync := true } else s1

/-- `VGADirectController::ISRHandler` (hardware build). -/
def ISRHandler (s : State) : Option State :=
  if s.I2S1.int_st_out_eof then
    let viewPortHeight := s.base.m_viewPortHeight
    let s1 := isrFrameReset s
    let linesCount := s1.m_linesCount
    if viewPortHeight = 0 then none
    else
      let scanLine := isrScanLine s1.s_scanLine linesCount viewPortHeight
      let lineIndex := isrLineIndex scanLine linesCount
      match s1.m_drawScanlineCallback, s1.m_lines with
      | some cb, some tbl =>
        match tableAt tbl.entries lineIndex with
        | some dest =>
          let s2 := { s1 with
            mem := cb s1.m_drawScanlineArg dest scanLine s1.mem
            calls := s1.calls ++ [⟨s1.m_drawScanlineArg, dest, scanLine⟩] }
          some (clearInterruptStatus (isrAdvance linesCount viewPortHeight s2))
        | none => none
      | _, _ => none
  else some (clearInterruptStatus s)

/-- `VGADirectController::VSync`. -/
def VSync (s : State) : Bool := s.s_VSync

/-! ## Construction and configuration -/

/-- The constructor `VGADirectController::VGADirectController(bool autoRun)`, on a freshly
started platform: the member initialisers of lines 77-80, zero-initialised class statics
(`s_DMALines = nullptr`), no pending interrupt, an empty heap whose first address is `16`,
and nothing recorded.  `m_drawScanlineArg` is left uninitialised by the
source; it is `0` here. -/
def VGADirectController (autoRun : Bool) (base : VGABaseController) : State :=
  { base := base
    m_linesCount := 2
    m_lines := none
    m_drawScanlineCallback := none
    m_drawScanlineArg := 0
    m_autoRun := autoRun
    s_scanLine := 0
    s_VSync := false
    s_frameResetDesc := 0
    s_DMALines := none
    I2S1 := { int_st_out_eof := false, out_eof_des_addr := 0, int_ena_out_eof := false }
    heap := { live := [], next := 16 }
    descs := fun _ => { buf := 0, eof := 0 }
    mem := fun _ => 0
    intrAllocs := 0
    calls := [] }

/-- A base-class object before any resolution is set: no viewport, no interrupt handler,
stream not started. -/
def VGABaseController.initial : VGABaseController :=
  { m_viewPortWidth := 0
    m_viewPortHeight := 0
    m_isr_handle := none
    m_doubleBufferOverDMA := false
    streamStarted := false }

/-- `VGADirectController::setDrawScanlineCallback`. -/
def setDrawScanlineCallback (drawScanlineCallback : Option DrawScanlineCallback) (arg : Nat)
    (s : State) : State :=
  { s with m_drawScanlineCallback := drawScanlineCallback, m_drawScanlineArg := arg }

/-- `VGADirectController::setScanlinesPerCallBack`. -/
def setScanlinesPerCallBack (value : Int) (s : State) : State :=
  { s with m_linesCount := value * 2 }

/-- `VGADirectController::allocateViewPort`: the pointer table, one pixel region of
`m_viewPortWidth * m_linesCount` bytes cut into `m_linesCount` lines, and the table of DMA
lines.  With no line to allocate the store to `m_lines[0]` is outside the table. -/
def allocateViewPort (s : State) : Option State :=
  let (tblAddr, h1) := heap_caps_malloc (4 * s.m_linesCount.toNat) s.heap
  if s.m_linesCount ≤ 0 then none
  else
    let (pix, h2) := heap_caps_malloc (s.base.m_viewPortWidth * s.m_linesCount).toNat h1
    let entries := (List.range s.m_linesCount.toNat).map
      (fun (i : Nat) => ((pix : Int) + (i : Int) * s.base.m_viewPortWidth).toNat)
    let (dmaAddr, h3) := heap_caps_malloc (4 * s.base.m_viewPortHeight.toNat) h2
    some { s with
      m_lines := some { addr := tblAddr, entries := entries }
      s_DMALines := some
        { addr := dmaAddr, entries := List.replicate s.base.m_viewPortHeight.toNat 0 }
      heap := h3 }

/-- `VGADirectController::freeViewPort`.  The base-class `VGABaseController::freeViewPort`
is not among the sources and is a parameter acting on the base-class members.  The
statement `heap_caps_free((void*)m_lines[0])` reads the table through `m_lines`. -/
def freeViewPort (VGABaseController_freeViewPort : VGABaseController → VGABaseController)
    (s : State) : Option State :=
  let s1 := { s with base := VGABaseController_freeViewPort s.base }
  match s1.m_lines with
  | none => none
  | some tbl =>
    match tableAt tbl.entries 0 with
    | none => none
    | some line0 =>
      match heap_caps_free line0 s1.heap with
      | none => none
      | some h1 =>
        match heap_caps_free tbl.addr h1 with
        | none => none
        | some h2 =>
          let s2 := { s1 with m_lines := none, heap := h2 }
          match s2.s_DMALines with
          | none => some s2
          | some dma =>
            match heap_caps_free dma.addr s2.heap with
            | none => none
            | some h3 => some { s2 with heap := h3 }

/-- Modelled from the spec: `VGABaseController::startGPIOStream` is not among the sources;
the spec's "start the hardware DMA stream" is the flag `streamStarted` being set. -/
def startGPIOStream (s : State) : State :=
  { s with base := { s.base with streamStarted := true } }

/-- Platform `esp_intr_alloc_pinnedToCore(..., ISRHandler, this, &m_isr_handle, ...)`: one
more handler is installed and its (non-null) handle is stored. -/
def esp_intr_alloc_pinnedToCore (s : State) : State :=
  { s with
    base := { s.base with m_isr_handle := some (s.intrAllocs + 1) }
    intrAllocs := s.intrAllocs + 1 }

/-- `VGADirectController::run` (hardware build). -/
def run (s : State) : State :=
  let s1 := startGPIOStream s
  let s2 := { s1 with s_scanLine := 0 }
  match s2.base.m_isr_handle with
  | none =>
    let s3 := esp_intr_alloc_pinnedToCore s2
    let s4 := clearInterruptStatus s3
    { s4 with I2S1 := { s4.I2S1 with int_ena_out_eof := true } }
  | some _ => s2

/-- `VGADirectController::setResolution`.  The base-class
`VGABaseController::setResolution` is not among the sources and is a parameter. -/
def setResolution {VGATimings : Type}
    (VGABaseController_setResolution : VGATimings → Int → Int → Bool → State → State)
    (timings : VGATimings) (viewPortWidth viewPortHeight : Int) (doubleBuffered : Bool)
    (s : State) : State :=
  match s.m_drawScanlineCallback with
  | none => s
  | some _ =>
    let s1 := VGABaseController_setResolution timings viewPortWidth viewPortHeight
      doubleBuffered s
    if s1.m_autoRun then run s1 else s1

/-! ## The DMA chain hook -/

/-- Line 168: the pool slot bound to a visible row, `visibleRow % m_linesCount`. -/
def dmaSlot (visibleRow linesCount : Int) : Int :=
  visibleRow.tmod linesCount

/-- Line 171: `scan == 0 && (visibleRow % (m_linesCount / 2)) == 0`. -/
def dmaInterruptRow (scan visibleRow linesCount : Int) : Bool :=
  decide (scan = 0) && decide (visibleRow.tmod (linesCount.tdiv 2) = 0)

/-- Store `buffer->buf = p`. -/
def setDescBuf (buffer p : Nat) (s : State) : State :=
  { s with descs := Function.update s.descs buffer { s.descs buffer with buf := p } }

/-- Store `buffer->eof = 1`. -/
def setDescEof (buffer : Nat) (s : State) : State :=
  { s with descs := Function.update s.descs buffer { s.descs buffer with eof := 1 } }

/-- `VGADirectController::onSetupDMABuffer` (hardware build).  Faults: `s_DMALines` or
`m_lines` null, an index outside its table, a zero divisor. -/
def onSetupDMABuffer (buffer : Nat) (_isStartOfVertFrontPorch : Bool) (scan : Int)
    (isVisible : Bool) (visibleRow : Int) (s : State) : Option State :=
  if isVisible then
    match s.s_DMALines with
    | none => none
    | some dma =>
      if 0 ≤ visibleRow ∧ visibleRow.toNat < dma.entries.length then
        let s1 : State := { s with
          s_DMALines := some { dma with entries := dma.entries.set visibleRow.toNat buffer } }
        if s1.m_linesCount = 0 then none
        else
          match s1.m_lines with
          | none => none
          | some tbl =>
            match tableAt tbl.entries (dmaSlot visibleRow s1.m_linesCount) with
            | none => none
            | some p =>
              let s2 := setDescBuf buffer p s1
              if scan = 0 then
                if s2.m_linesCount.tdiv 2 = 0 then none
                else if dmaInterruptRow scan visibleRow s2.m_linesCount then
                  let s3 := if visibleRow = 0 then { s2 with s_frameResetDesc := buffer } else s2
                  some (setDescEof buffer s3)
                else some s2
              else some s2
      else none
  else some s

/-- `VGADirectController::getDefaultScanlineBuffer`. -/
def getDefaultScanlineBuffer (scanline : Int) (s : State) : Option Nat :=
  match s.m_lines with
  | none => none
  | some tbl =>
    if s.m_linesCount = 0 then none
    else tableAt tbl.entries (scanline.tmod s.m_linesCount)

/-! ## The read-back path -/

/-- The colour type `RGB888` (three `uint8_t` channels). -/
structure RGB888 where
  R : Nat
  G : Nat
  B : Nat
deriving DecidableEq, Repr

/-- Line 285: `RGB888((rawpix & 3) * 85, ((rawpix >> 2) & 3) * 85, ((rawpix >> 4) & 3) * 85)`,
each argument converted to `uint8_t`. -/
def decodePixel (rawpix : Nat) : RGB888 :=
  { R := ((rawpix &&& 3) * 85) % 256
    G := (((rawpix >>> 2) &&& 3) * 85) % 256
    B := (((rawpix >>> 4) &&& 3) * 85) % 256 }

/-- The values of a C++ loop `for (int v = lo; v <= hi; ++v)`. -/
def forRange (lo hi : Int) : List Int :=
  (List.range (hi + 1 - lo).toNat).map (fun (k : Nat) => lo + (k : Int))

/-- The body of the outer loop of `readScreen` for row `y`: the callback renders the row
into `m_lines[0]`, then every column of `X1..X2` is decoded and stored through `destBuf`.
The macro `VGA_PIXELINROW(row, x)` is not among the sources: it reads the byte `row[i]` of
the line, and `pixelIndex x` is that index `i`. -/
def readScreenRow (pixelIndex : Int → Int) (X1 X2 : Int) (acc : State × List RGB888)
    (y : Int) : Option (State × List RGB888) :=
  match acc.1.m_drawScanlineCallback, acc.1.m_lines with
  | some cb, some tbl =>
    match tableAt tbl.entries 0 with
    | none => none
    | some line0 =>
      let s1 := { acc.1 with
        mem := cb acc.1.m_drawScanlineArg line0 y acc.1.mem
        calls := acc.1.calls ++ [⟨acc.1.m_drawScanlineArg, line0, y⟩] }
      let row := (forRange X1 X2).map
        (fun x => decodePixel (s1.mem ((line0 : Int) + pixelIndex x).toNat % 256))
      some (s1, acc.2 ++ row)
  | _, _ => none

/-- `VGADirectController::readScreen`: the final state and the colours stored through
`destBuf`, in the order of the stores. -/
def readScreen (pixelIndex : Int → Int) (X1 Y1 X2 Y2 : Int) (s : State) :
    Option (State × List RGB888) :=
  (forRange Y1 Y2).foldlM (readScreenRow pixelIndex X1 X2) (s, [])

/-! ## Runs of the interrupt handler -/

/-- One interrupt: the hardware reports `out_eof` for descriptor `desc`, then the handler
runs. -/
def interrupt (desc : Nat) (s : State) : Option State :=
  ISRHandler (raiseOutEof desc s)

/-- A run of interrupts, one for each completed descriptor of the list, in order. -/
def interrupts (descs : List Nat) (s : State) : Option State :=
  descs.foldlM (fun st d => interrupt d st) s

/-- One invocation of the handler: `some desc` is an interrupt with `out_eof` pending for
descriptor `desc`, `none` is an invocation with no `out_eof` pending. -/
def invoke (e : Option Nat) (s : State) : Option State :=
  match e with
  | some d => interrupt d s
  | none => ISRHandler { s with I2S1 := { s.I2S1 with int_st_out_eof := false } }

/-- Any sequence of handler invocations, in order. -/
def invocations (es : List (Option Nat)) (s : State) : Option State :=
  es.foldlM (fun st e => invoke e st) s

/-- The number of invocations of a sequence that have `out_eof` pending. -/
def pendingCount (es : List (Option Nat)) : Nat :=
  (es.filter Option.isSome).length

/-- Whether every sum `s_scanLine + linesCount / 2` the handler computes (lines 332 and
338) along a sequence of invocations fits a 32-bit `int`, when the sequence starts with the
counter at `c` and `half` is `linesCount / 2`: an invocation with nothing pending computes
no sum, one for the frame-reset descriptor first sets the counter to `0` (line 328). -/
def counterInRange (half : Int) (frameResetDesc : Nat) : Int → List (Option Nat) → Bool
  | _, [] => true
  | c, none :: es => counterInRange half frameResetDesc c es
  | c, some d :: es =>
    decide ((if d = frameResetDesc then 0 else c) + half ≤ 2147483647) &&
      counterInRange half frameResetDesc ((if d = frameResetDesc then 0 else c) + half) es

/-- The scanline indices of the recorded callback invocations, oldest first. -/
def renderedScanlines (s : State) : List Int :=
  s.calls.map (fun c => c.scanLine)

/-! ## Configured controllers -/

/-- The controller is configured with pool size `P` and viewport height `H`, the values
of the members `m_linesCount` (an `int32_t`) and `m_viewPortHeight` (a base-class member
the handler uses as an `int`), so neither exceeds `2147483647`: a callback is registered
and `m_lines` points to a table of `P` entries (as `allocateViewPort` leaves it). -/
def Armed (P H : Int) (s : State) : Prop :=
  (P ≤ 2147483647 ∧ H ≤ 2147483647) ∧
    s.m_linesCount = P ∧ s.base.m_viewPortHeight = H ∧
    (∃ cb, s.m_drawScanlineCallback = some cb) ∧
    (∃ tbl, s.m_lines = some tbl ∧ (tbl.entries.length : Int) = P)

/-- The scanline rendered by the `i`-th interrupt (counting from 0) after the counter was
`c`, when no frame reset intervenes: `(c + (i+1) * (P/2)) mod H`. -/
def renderedAfter (c P H : Int) (i : Nat) : Int :=
  (c + ((i : Int) + 1) * (P / 2)) % H

/-- A recorded callback invocation is in range for pool `tbl` of size `P` and height `H`:
its scanline index lies in `0..H-1`, the pool index `scanLine & (P-1)` lies in `0..P-1`,
and its destination is that entry of the pool. -/
def CallInRange (P H : Int) (tbl : LineTable) (c : CallbackCall) : Prop :=
  0 ≤ c.scanLine ∧ c.scanLine < H ∧
    0 ≤ isrLineIndex c.scanLine P ∧ isrLineIndex c.scanLine P < P ∧
    tableAt tbl.entries (isrLineIndex c.scanLine P) = some c.dest

/-- The pool slot of a scanline in the words of the specification, `slot mod count`
("`getDefaultBuffer(slot)` returns `pool[slot mod count]`", "bound to
`pool[slotIndex mod N]`"), with the mathematical remainder. -/
def specPoolSlot (slot count : Int) : Int :=
  slot % count

/-! ## Concrete states for evaluation -/

/-- A rendering callback for a viewport four pixels wide: it fills the four bytes of the
line with the low byte of the scanline index. -/
def exampleCallback : DrawScanlineCallback :=
  fun _ dest scanLine mem a =>
    if dest ≤ a ∧ a < dest + 4 then scanLine.toNat % 256 else mem a

/-- The column-to-byte map `x ^ 2` of a line whose pixels are stored in the byte order of
the 32-bit DMA words, a candidate for the index read by `VGA_PIXELINROW`. -/
def examplePixelIndex (x : Int) : Int :=
  ((x.toNat ^^^ 2 : Nat) : Int)

/-- An armed controller used to evaluate the theorems: two lines of four bytes at `25`
and `29`, height `6`, the callback `exampleCallback`, descriptors `100 + row`, frame reset
at descriptor `100`. -/
def exampleArmed : State :=
  { VGADirectController false
      { VGABaseController.initial with m_viewPortWidth := 4, m_viewPortHeight := 6 } with
    m_lines := some { addr := 16, entries := [25, 29] }
    m_drawScanlineCallback := some exampleCallback
    s_frameResetDesc := 100
    s_DMALines := some { addr := 34, entries := [100, 101, 102, 103, 104, 105] }
    heap := { live := [34, 25, 16], next := 59 } }

/-- A controller configured to render a whole frame per callback: height `2`,
`setScanlinesPerCallBack(2)` (four lines of four bytes at `33`, `37`, `41`, `45`), the
callback of `exampleArmed`, descriptors `100` and `101`, frame reset at `100`. -/
def exampleWholeFrame : State :=
  { exampleArmed with
    base := { VGABaseController.initial with m_viewPortWidth := 4, m_viewPortHeight := 2 }
    m_linesCount := 4
    m_lines := some { addr := 16, entries := [33, 37, 41, 45] }
    s_DMALines := some { addr := 50, entries := [100, 101] }
    heap := { live := [50, 33, 16], next := 59 } }

/-! ## Arithmetic of the handler -/

theorem tdiv_two_eq (P : Int) (hP : 0 ≤ P) : P.tdiv 2 = P / 2 :=
  Int.tdiv_eq_ediv hP (by decide)

theorem wrapInt32_of_range (x : Int) (h0 : -2147483648 ≤ x) (h1 : x ≤ 2147483647) :
    wrapInt32 x = x := by
  unfold wrapInt32
  omega

theorem wrapInt32_range (x : Int) : -2147483648 ≤ wrapInt32 x ∧ wrapInt32 x ≤ 2147483647 := by
  unfold wrapInt32
  omega

/-- While the sum fits a 32-bit `int`, line 332 is the mathematical remainder. -/
theorem isrScanLine_eq (c P H : Int) (hc : 0 ≤ c) (hP : 0 ≤ P) (hH : 0 < H)
    (hmax : c + P / 2 ≤ 2147483647) :
    isrScanLine c P H = (c + P / 2) % H := by
  unfold isrScanLine
  rw [tdiv_two_eq P hP]
  have h2 : 0 ≤ P / 2 := Int.ediv_nonneg hP (by decide)
  rw [wrapInt32_of_range _ (by omega) hmax]
  exact Int.tmod_eq_emod (by omega) (by omega)

theorem ldiff_le (m n : Nat) : Nat.ldiff m n ≤ m :=
  Nat.le_of_testBit (fun i h => by
    rw [Nat.testBit_ldiff] at h
    simp at h
    exact h.1)

/-- A mask with a non-negative right operand lies between `0` and the mask, whatever the
sign of the left operand (two's complement). -/
theorem land_bounds (x m : Int) (hm : 0 ≤ m) : 0 ≤ Int.land x m ∧ Int.land x m ≤ m := by
  obtain ⟨b, rfl⟩ := Int.eq_ofNat_of_zero_le hm
  cases x with
  | ofNat a =>
    have h : Int.land (Int.ofNat a) (b : Int) = ((a &&& b : Nat) : Int) := rfl
    rw [h]
    exact ⟨Int.ofNat_nonneg _, Int.ofNat_le.mpr Nat.and_le_right⟩
  | negSucc a =>
    have h : Int.land (Int.negSucc a) (b : Int) = ((Nat.ldiff b a : Nat) : Int) := rfl
    rw [h]
    exact ⟨Int.ofNat_nonneg _, Int.ofNat_le.mpr (ldiff_le b a)⟩

/-- The pool index of the handler is inside a pool of `P ≥ 1` lines for every scanline
value, negative ones included. -/
theorem isrLineIndex_bounds_any (r P : Int) (hP : 1 ≤ P) :
    0 ≤ isrLineIndex r P ∧ isrLineIndex r P < P := by
  have h := land_bounds r (P - 1) (by omega)
  unfold isrLineIndex
  omega

theorem tableAt_isSome (entries : List Nat) (i : Int) (h0 : 0 ≤ i)
    (h1 : i < (entries.length : Int)) : ∃ d, tableAt entries i = some d := by
  unfold tableAt
  rw [if_pos h0]
  have hlt : i.toNat < entries.length := by omega
  exact ⟨entries[i.toNat], List.getElem?_eq_getElem hlt⟩

/-! ## Field projections of the handler's steps -/

@[simp] theorem clearInterruptStatus_scanLine (s : State) :
    (clearInterruptStatus s).s_scanLine = s.s_scanLine := rfl

@[simp] theorem clearInterruptStatus_VSync (s : State) :
    (clearInterruptStatus s).s_VSync = s.s_VSync := rfl

@[simp] theorem clearInterruptStatus_calls (s : State) :
    (clearInterruptStatus s).calls = s.calls := rfl

@[simp] theorem clearInterruptStatus_mem (s : State) :
    (clearInterruptStatus s).mem = s.mem := rfl

@[simp] theorem clearInterruptStatus_linesCount (s : State) :
    (clearInterruptStatus s).m_linesCount = s.m_linesCount := rfl

@[simp] theorem clearInterruptStatus_lines (s : State) :
    (clearInterruptStatus s).m_lines = s.m_lines := rfl

@[simp] theorem clearInterruptStatus_callback (s : State) :
    (clearInterruptStatus s).m_drawScanlineCallback = s.m_drawScanlineCallback := rfl

@[simp] theorem clearInterruptStatus_arg (s : State) :
    (clearInterruptStatus s).m_drawScanlineArg = s.m_drawScanlineArg := rfl

@[simp] theorem clearInterruptStatus_base (s : State) :
    (clearInterruptStatus s).base = s.base := rfl

@[simp] theorem clearInterruptStatus_frameResetDesc (s : State) :
    (clearInterruptStatus s).s_frameResetDesc = s.s_frameResetDesc := rfl

@[simp] theorem isrAdvance_scanLine (P H : Int) (s : State) :
    (isrAdvance P H s).s_scanLine = wrapInt32 (s.s_scanLine + P.tdiv 2) := by
  unfold isrAdvance
  dsimp only
  split <;> rfl

@[simp] theorem isrAdvance_VSync (P H : Int) (s : State) :
    (isrAdvance P H s).s_VSync =
      (s.s_VSync || decide (H ≤ wrapInt32 (s.s_scanLine + P.tdiv 2))) := by
  unfold isrAdvance
  dsimp only
  split
  · next h => simp [h]
  · next h => simp [h]

@[simp] theorem isrAdvance_calls (P H : Int) (s : State) :
    (isrAdvance P H s).calls = s.calls := by
  unfold isrAdvance
  dsimp only
  split <;> rfl

@[simp] theorem isrAdvance_mem (P H : Int) (s : State) :
    (isrAdvance P H s).mem = s.mem := by
  unfold isrAdvance
  dsimp only
  split <;> rfl

@[simp] theorem isrAdvance_linesCount (P H : Int) (s : State) :
    (isrAdvance P H s).m_linesCount = s.m_linesCount := by
  unfold isrAdvance
  dsimp only
  split <;> rfl

@[simp] theorem isrAdvance_lines (P H : Int) (s : State) :
    (isrAdvance P H s).m_lines = s.m_lines := by
  unfold isrAdvance
  dsimp only
  split <;> rfl

@[simp] theorem isrAdvance_callback (P H : Int) (s : State) :
    (isrAdvance P H s).m_drawScanlineCallback = s.m_drawScanlineCallback := by
  unfold isrAdvance
  dsimp only
  split <;> rfl

@[simp] theorem isrAdvance_arg (P H : Int) (s : State) :
    (isrAdvance P H s).m_drawScanlineArg = s.m_drawScanlineArg := by
  unfold isrAdvance
  dsimp only
  split <;> rfl

@[simp] theorem isrAdvance_base (P H : Int) (s : State) :
    (isrAdvance P H s).base = s.base := by
  unfold isrAdvance
  dsimp only
  split <;> rfl

@[simp] theorem isrAdvance_frameResetDesc (P H : Int) (s : State) :
    (isrAdvance P H s).s_frameResetDesc = s.s_frameResetDesc := by
  unfold isrAdvance
  dsimp only
  split <;> rfl

/-! ## One step of the producer -/

/-- The handler on a pending `out_eof` whose descriptor is not the frame-reset one, with the
pool entry it needs in place: one callback invocation, counter advanced, status cleared. -/
theorem ISRHandler_noReset (s : State) (cb : DrawScanlineCallback) (tbl : LineTable)
    (dest : Nat) (hH : s.base.m_viewPortHeight ≠ 0)
    (hcb : s.m_drawScanlineCallback = some cb) (htbl : s.m_lines = some tbl)
    (heof : s.I2S1.int_st_out_eof = true)
    (hnr : s.I2S1.out_eof_des_addr ≠ s.s_frameResetDesc)
    (hd : tableAt tbl.entries
      (isrLineIndex (isrScanLine s.s_scanLine s.m_linesCount s.base.m_viewPortHeight)
        s.m_linesCount) = some dest) :
    ISRHandler s = some (clearInterruptStatus (isrAdvance s.m_linesCount
      s.base.m_viewPortHeight { s with
        mem := cb s.m_drawScanlineArg dest
          (isrScanLine s.s_scanLine s.m_linesCount s.base.m_viewPortHeight) s.mem
        calls := s.calls ++ [⟨s.m_drawScanlineArg, dest,
          isrScanLine s.s_scanLine s.m_linesCount s.base.m_viewPortHeight⟩] })) := by
  have hfr : isrFrameReset s = s := by
    unfold isrFrameReset
    rw [if_neg hnr]
  unfold ISRHandler
  simp only [heof, if_true, hfr, hH, if_false, hcb, htbl, hd]

/-- The handler on a pending `out_eof` for the frame-reset descriptor. -/
theorem ISRHandler_reset (s : State) (cb : DrawScanlineCallback) (tbl : LineTable)
    (dest : Nat) (hH : s.base.m_viewPortHeight ≠ 0)
    (hcb : s.m_drawScanlineCallback = some cb) (htbl : s.m_lines = some tbl)
    (heof : s.I2S1.int_st_out_eof = true)
    (hr : s.I2S1.out_eof_des_addr = s.s_frameResetDesc)
    (hd : tableAt tbl.entries
      (isrLineIndex (isrScanLine 0 s.m_linesCount s.base.m_viewPortHeight)
        s.m_linesCount) = some dest) :
    ISRHandler s = some (clearInterruptStatus (isrAdvance s.m_linesCount
      s.base.m_viewPortHeight { s with
        s_scanLine := 0
        s_VSync := false
        mem := cb s.m_drawScanlineArg dest
          (isrScanLine 0 s.m_linesCount s.base.m_viewPortHeight) s.mem
        calls := s.calls ++ [⟨s.m_drawScanlineArg, dest,
          isrScanLine 0 s.m_linesCount s.base.m_viewPortHeight⟩] })) := by
  have hfr : isrFrameReset s = { s with s_scanLine := 0, s_VSync := false } := by
    unfold isrFrameReset
    rw [if_pos hr]
  unfold ISRHandler
  simp only [heof, if_true, hfr, hH, if_false, hcb, htbl, hd]

/-- The destination the handler needs exists: for every counter value, a pool of
`P ≥ 1` entries and a positive height, the index `scanLine & (P - 1)` is inside the pool. -/
theorem isr_dest_exists (entries : List Nat) (c P H : Int) (hP : 1 ≤ P)
    (hlen : (entries.length : Int) = P) :
    ∃ dest, tableAt entries (isrLineIndex (isrScanLine c P H) P) = some dest := by
  have hb := isrLineIndex_bounds_any (isrScanLine c P H) P hP
  exact tableAt_isSome entries _ hb.1 (by omega)

theorem land_neg_two_one : Int.land (-2) 1 = 0 := by
  show ((Nat.ldiff 1 1 : Nat) : Int) = 0
  have h : Nat.ldiff 1 1 = 0 := by
    apply Nat.eq_of_testBit_eq
    intro i
    rw [Nat.testBit_ldiff]
    simp
  rw [h]
  rfl

/-- C1 (as stated) fails at the top of the `int` range: with `P = 2`, `H = 6` and the
counter at `c = 2147483647` (`INT_MAX`), the 32-bit sum `c + P/2` wraps to `-2147483648`;
the handler passes scanline `-2` (into `pool[0]`) and leaves the counter at `-2147483648`,
while the claim says scanline `(c + P/2) mod H = 2` and counter `c + P/2 = 2147483648`. -/
theorem C1_counterexample :
    ∃ s1, ISRHandler (raiseOutEof 101 { exampleArmed with s_scanLine := 2147483647 })
        = some s1 ∧
      s1.calls = [⟨0, 25, -2⟩] ∧ s1.s_scanLine = -2147483648 ∧
      ((2147483647 : Int) + 2 / 2) % 6 = 2 ∧ (2147483647 : Int) + 2 / 2 = 2147483648 := by
  have hscan : isrScanLine 2147483647 2 6 = -2 := by decide
  have hidx : isrLineIndex (-2) 2 = 0 := land_neg_two_one
  have hstep := ISRHandler_noReset
    (raiseOutEof 101 { exampleArmed with s_scanLine := 2147483647 }) exampleCallback
    { addr := 16, entries := [25, 29] } 25 (by decide) rfl rfl rfl (by decide)
    (by
      show tableAt [25, 29] (isrLineIndex (isrScanLine 2147483647 2 6) 2) = some 25
      rw [hscan, hidx]
      rfl)
  refine ⟨_, hstep, ?_, ?_, by decide, by decide⟩
  · show [] ++ [CallbackCall.mk 0 25 (isrScanLine 2147483647 2 6)] = _
    rw [hscan]
    rfl
  · show (isrAdvance 2 6 _).s_scanLine = _
    rw [isrAdvance_scanLine]
    decide

/-- C1 (amended). One producer step: with pool size `P ≥ 2`, viewport height `H > 0` and
counter `c ≥ 0` such that `c + P/2` fits a 32-bit `int` (`c + P/2 ≤ 2147483647`), a
handler invocation with `out_eof` pending for a descriptor other than the frame-reset one
returns, invokes the rendering callback exactly once, with scanline `r = (c + P/2) mod H`
and destination `pool[r & (P-1)]`, and leaves the counter at `c + P/2`. -/
theorem C1_ISRHandler_step (s : State) (cb : DrawScanlineCallback) (tbl : LineTable)
    (P H c : Int) (hP : 2 ≤ P) (hH : 0 < H) (hc : 0 ≤ c) (hmax : c + P / 2 ≤ 2147483647)
    (hlines : s.m_linesCount = P) (hheight : s.base.m_viewPortHeight = H)
    (hcount : s.s_scanLine = c)
    (hcb : s.m_drawScanlineCallback = some cb) (htbl : s.m_lines = some tbl)
    (hlen : (tbl.entries.length : Int) = P)
    (heof : s.I2S1.int_st_out_eof = true)
    (hnr : s.I2S1.out_eof_des_addr ≠ s.s_frameResetDesc) :
    ∃ s1 dest, ISRHandler s = some s1 ∧
      tableAt tbl.entries (Int.land ((c + P / 2) % H) (P - 1)) = some dest ∧
      s1.calls = s.calls ++ [⟨s.m_drawScanlineArg, dest, (c + P / 2) % H⟩] ∧
      s1.mem = cb s.m_drawScanlineArg dest ((c + P / 2) % H) s.mem ∧
      s1.s_scanLine = c + P / 2 := by
  obtain ⟨dest, hd⟩ := isr_dest_exists tbl.entries c P H (by omega) hlen
  have hstep := ISRHandler_noReset s cb tbl dest (by omega) hcb htbl heof hnr
    (by rw [hlines, hheight, hcount]; exact hd)
  have h2 : 0 ≤ P / 2 := Int.ediv_nonneg (by omega) (by decide)
  rw [hlines, hheight, hcount, isrScanLine_eq c P H hc (by omega) hH hmax] at hstep
  rw [isrScanLine_eq c P H hc (by omega) hH hmax] at hd
  refine ⟨_, dest, hstep, hd, ?_, ?_, ?_⟩
  · simp
  · simp
  · simp [tdiv_two_eq P (by omega : (0 : Int) ≤ P),
      wrapInt32_of_range (c + P / 2) (by omega) hmax]

/-- C1 (amended) evaluated on `exampleArmed` after descriptor `101` completed. -/
theorem C1_ISRHandler_step_witness :
    ∃ s1 dest, ISRHandler (raiseOutEof 101 exampleArmed) = some s1 ∧
      tableAt [25, 29] (Int.land ((0 + 2 / 2) % 6) (2 - 1)) = some dest ∧
      s1.calls = [⟨0, dest, (0 + 2 / 2) % 6⟩] ∧
      s1.mem = (fun a => if dest ≤ a ∧ a < dest + 4 then ((0 + 2 / 2) % 6 : Int).toNat % 256
        else 0) ∧
      s1.s_scanLine = 0 + 2 / 2 :=
  C1_ISRHandler_step (raiseOutEof 101 exampleArmed) _ { addr := 16, entries := [25, 29] }
    2 6 0 (by decide) (by decide) (by decide) (by decide) rfl rfl rfl rfl rfl rfl rfl
    (by decide)

/-! ## Runs of interrupts -/

theorem Armed_run (P H : Int) (s : State) (h : Armed P H s) : Armed P H (run s) := by
  unfold run startGPIOStream esp_intr_alloc_pinnedToCore clearInterruptStatus
  dsimp only
  split <;> exact h

theorem run_scanLine (s : State) : (run s).s_scanLine = 0 := by
  unfold run startGPIOStream esp_intr_alloc_pinnedToCore clearInterruptStatus
  dsimp only
  split <;> rfl

theorem run_calls (s : State) : (run s).calls = s.calls := by
  unfold run startGPIOStream esp_intr_alloc_pinnedToCore clearInterruptStatus
  dsimp only
  split <;> rfl

theorem run_frameResetDesc (s : State) : (run s).s_frameResetDesc = s.s_frameResetDesc := by
  unfold run startGPIOStream esp_intr_alloc_pinnedToCore clearInterruptStatus
  dsimp only
  split <;> rfl

/-- One interrupt on a configured controller, whatever the counter and the descriptor.
With `c0` the counter after the frame-reset test, the handler returns, invokes the
callback once with the scanline of line 332 and the pool entry of line 334, and leaves
the 32-bit counter at `c0 + P/2` wrapped. -/
theorem interrupt_any (P H : Int) (s : State) (d : Nat) (tbl : LineTable) (hP : 1 ≤ P)
    (hH : 0 < H) (ha : Armed P H s) (htbl : s.m_lines = some tbl) :
    ∃ s1 dest, interrupt d s = some s1 ∧ Armed P H s1 ∧
      s1.s_frameResetDesc = s.s_frameResetDesc ∧ s1.m_lines = s.m_lines ∧
      s1.m_drawScanlineArg = s.m_drawScanlineArg ∧
      s1.s_scanLine =
        wrapInt32 ((if d = s.s_frameResetDesc then 0 else s.s_scanLine) + P / 2) ∧
      s1.s_VSync = ((if d = s.s_frameResetDesc then false else s.s_VSync) ||
        decide (H ≤ wrapInt32 ((if d = s.s_frameResetDesc then 0 else s.s_scanLine) + P / 2))) ∧
      tableAt tbl.entries (isrLineIndex
        (isrScanLine (if d = s.s_frameResetDesc then 0 else s.s_scanLine) P H) P)
          = some dest ∧
      s1.calls = s.calls ++ [⟨s.m_drawScanlineArg, dest,
        isrScanLine (if d = s.s_frameResetDesc then 0 else s.s_scanLine) P H⟩] := by
  obtain ⟨hmx, hl, hh, ⟨cb, hcb⟩, tbl1, htbl1, hlen⟩ := ha
  have htt : tbl1 = tbl := Option.some.inj (htbl1.symm.trans htbl)
  subst htt
  have ht : P.tdiv 2 = P / 2 := tdiv_two_eq P (by omega)
  have harmed : ∀ s1 : State, s1.m_linesCount = s.m_linesCount →
      s1.base.m_viewPortHeight = s.base.m_viewPortHeight →
      s1.m_drawScanlineCallback = s.m_drawScanlineCallback → s1.m_lines = s.m_lines →
      Armed P H s1 := fun s1 e1 e2 e3 e4 =>
    ⟨hmx, e1.trans hl, e2.trans hh, ⟨cb, e3.trans hcb⟩, tbl1, e4.trans htbl1, hlen⟩
  by_cases hd : d = s.s_frameResetDesc
  · simp only [if_pos hd]
    obtain ⟨dest, hdest⟩ := isr_dest_exists tbl1.entries 0 P H hP hlen
    have hstep := ISRHandler_reset (raiseOutEof d s) cb tbl1 dest
      (by show s.base.m_viewPortHeight ≠ 0; omega) hcb htbl1 rfl hd
      (by show tableAt tbl1.entries (isrLineIndex (isrScanLine 0 s.m_linesCount
            s.base.m_viewPortHeight) s.m_linesCount) = some dest
          rw [hl, hh]; exact hdest)
    refine ⟨_, dest, hstep, harmed _ (by simp [raiseOutEof]) (by simp [raiseOutEof])
      (by simp [raiseOutEof]) (by simp [raiseOutEof]), ?_, ?_, ?_, ?_, ?_, hdest, ?_⟩
    · simp [raiseOutEof]
    · simp [raiseOutEof]
    · simp [raiseOutEof]
    · simp [raiseOutEof, hl, ht]
    · simp [raiseOutEof, hl, hh, ht]
    · simp [raiseOutEof, hl, hh]
  · simp only [if_neg hd]
    obtain ⟨dest, hdest⟩ := isr_dest_exists tbl1.entries s.s_scanLine P H hP hlen
    have hstep := ISRHandler_noReset (raiseOutEof d s) cb tbl1 dest
      (by show s.base.m_viewPortHeight ≠ 0; omega) hcb htbl1 rfl hd
      (by show tableAt tbl1.entries (isrLineIndex (isrScanLine s.s_scanLine s.m_linesCount
            s.base.m_viewPortHeight) s.m_linesCount) = some dest
          rw [hl, hh]; exact hdest)
    refine ⟨_, dest, hstep, harmed _ (by simp [raiseOutEof]) (by simp [raiseOutEof])
      (by simp [raiseOutEof]) (by simp [raiseOutEof]), ?_, ?_, ?_, ?_, ?_, hdest, ?_⟩
    · simp [raiseOutEof]
    · simp [raiseOutEof]
    · simp [raiseOutEof]
    · simp [raiseOutEof, hl, ht]
    · simp [raiseOutEof, hl, hh, ht]
    · simp [raiseOutEof, hl, hh]

/-- One interrupt on a configured controller, frame reset or not, while the sum
`c0 + P/2` fits a 32-bit `int` (`c0` is the counter after the frame-reset test): the
scanline is `(c0 + P/2) mod H` and the counter becomes `c0 + P/2`. -/
theorem interrupt_spec (P H : Int) (s : State) (d : Nat) (tbl : LineTable) (hP : 1 ≤ P)
    (hH : 0 < H) (ha : Armed P H s) (htbl : s.m_lines = some tbl)
    (hc : 0 ≤ (if d = s.s_frameResetDesc then 0 else s.s_scanLine))
    (hmax : (if d = s.s_frameResetDesc then 0 else s.s_scanLine) + P / 2 ≤ 2147483647) :
    ∃ s1 dest, interrupt d s = some s1 ∧ Armed P H s1 ∧
      s1.s_frameResetDesc = s.s_frameResetDesc ∧ s1.m_lines = s.m_lines ∧
      s1.m_drawScanlineArg = s.m_drawScanlineArg ∧
      s1.s_scanLine = (if d = s.s_frameResetDesc then 0 else s.s_scanLine) + P / 2 ∧
      tableAt tbl.entries (isrLineIndex
        (((if d = s.s_frameResetDesc then 0 else s.s_scanLine) + P / 2) % H) P)
          = some dest ∧
      s1.calls = s.calls ++ [⟨s.m_drawScanlineArg, dest,
        ((if d = s.s_frameResetDesc then 0 else s.s_scanLine) + P / 2) % H⟩] := by
  obtain ⟨s1, dest, h1, ha1, hf1, hl1, harg1, hc1, _, hdest, hcalls⟩ :=
    interrupt_any P H s d tbl hP hH ha htbl
  have h2 : 0 ≤ P / 2 := Int.ediv_nonneg (by omega) (by decide)
  have hr := isrScanLine_eq (if d = s.s_frameResetDesc then 0 else s.s_scanLine) P H hc
    (by omega) hH hmax
  rw [hr] at hdest hcalls
  rw [wrapInt32_of_range _ (by omega) hmax] at hc1
  exact ⟨s1, dest, h1, ha1, hf1, hl1, harg1, hc1, hdest, hcalls⟩

/-- One interrupt for a descriptor other than the frame-reset one, on a configured
controller with a non-negative counter, while `s_scanLine + P/2` fits a 32-bit `int`. -/
theorem interrupt_noReset (P H : Int) (s : State) (d : Nat) (hP : 1 ≤ P) (hH : 0 < H)
    (ha : Armed P H s) (hc : 0 ≤ s.s_scanLine) (hd : d ≠ s.s_frameResetDesc)
    (hmax : s.s_scanLine + P / 2 ≤ 2147483647) :
    ∃ s1, interrupt d s = some s1 ∧ Armed P H s1 ∧
      s1.s_frameResetDesc = s.s_frameResetDesc ∧
      s1.s_scanLine = s.s_scanLine + P / 2 ∧
      s1.s_VSync = (s.s_VSync || decide (H ≤ s.s_scanLine + P / 2)) ∧
      renderedScanlines s1 = renderedScanlines s ++ [(s.s_scanLine + P / 2) % H] := by
  obtain ⟨tbl, htbl, _⟩ := ha.2.2.2.2
  obtain ⟨s1, dest, h1, ha1, hf1, _, _, hc1, hv1, _, hcalls⟩ :=
    interrupt_any P H s d tbl hP hH ha htbl
  have h2 : 0 ≤ P / 2 := Int.ediv_nonneg (by omega) (by decide)
  simp only [if_neg hd] at hc1 hv1 hcalls
  rw [wrapInt32_of_range _ (by omega) hmax] at hc1 hv1
  rw [isrScanLine_eq s.s_scanLine P H hc (by omega) hH hmax] at hcalls
  exact ⟨s1, h1, ha1, hf1, hc1, hv1, by simp [renderedScanlines, hcalls]⟩

/-- One interrupt for the frame-reset descriptor on a configured controller. -/
theorem interrupt_reset (P H : Int) (s : State) (hP : 1 ≤ P) (hH : 0 < H)
    (ha : Armed P H s) :
    ∃ s1, interrupt s.s_frameResetDesc s = some s1 ∧ Armed P H s1 ∧
      s1.s_frameResetDesc = s.s_frameResetDesc ∧
      s1.s_scanLine = P / 2 ∧
      s1.s_VSync = decide (H ≤ P / 2) ∧
      renderedScanlines s1 = renderedScanlines s ++ [(P / 2) % H] := by
  obtain ⟨tbl, htbl, _⟩ := ha.2.2.2.2
  have hPmax : P ≤ 2147483647 := ha.1.1
  obtain ⟨s1, dest, h1, ha1, hf1, _, _, hc1, hv1, _, hcalls⟩ :=
    interrupt_any P H s s.s_frameResetDesc tbl hP hH ha htbl
  have h2 : 0 ≤ P / 2 := Int.ediv_nonneg (by omega) (by decide)
  have hmax : (0 : Int) + P / 2 ≤ 2147483647 := by omega
  simp only [if_true] at hc1 hv1 hcalls
  rw [wrapInt32_of_range _ (by omega) hmax] at hc1 hv1
  rw [isrScanLine_eq 0 P H (le_refl 0) (by omega) hH hmax] at hcalls
  rw [zero_add] at hc1 hv1 hcalls
  exact ⟨s1, h1, ha1, hf1, hc1, by simpa using hv1, by simp [renderedScanlines, hcalls]⟩

theorem interrupts_nil (s : State) : interrupts [] s = some s := rfl

theorem interrupts_cons (d : Nat) (ds : List Nat) (s s1 : State)
    (h : interrupt d s = some s1) : interrupts (d :: ds) s = interrupts ds s1 := by
  unfold interrupts
  rw [List.foldlM_cons, h]
  rfl

theorem renderedAfter_succ (c P H : Int) (i : Nat) :
    renderedAfter (c + P / 2) P H i = renderedAfter c P H (i + 1) := by
  unfold renderedAfter
  push_cast
  congr 1
  ring

/-- A run of interrupts none of which is for the frame-reset descriptor, while the
counter fits a 32-bit `int`: the counter advances by `P/2` each time and the scanlines
rendered are `(c + (i+1) * (P/2)) mod H`. -/
theorem interrupts_noReset (P H : Int) (hP : 1 ≤ P) (hH : 0 < H) (ds : List Nat) :
    ∀ s : State, Armed P H s → 0 ≤ s.s_scanLine → (∀ d ∈ ds, d ≠ s.s_frameResetDesc) →
      s.s_scanLine + (ds.length : Int) * (P / 2) ≤ 2147483647 →
      ∃ s1, interrupts ds s = some s1 ∧ Armed P H s1 ∧
        s1.s_frameResetDesc = s.s_frameResetDesc ∧
        s1.s_scanLine = s.s_scanLine + (ds.length : Int) * (P / 2) ∧
        s1.s_VSync = (s.s_VSync || (decide (0 < ds.length) &&
          decide (H ≤ s.s_scanLine + (ds.length : Int) * (P / 2)))) ∧
        renderedScanlines s1 = renderedScanlines s ++
          (List.range ds.length).map (renderedAfter s.s_scanLine P H) := by
  have h2 : 0 ≤ P / 2 := Int.ediv_nonneg (by omega) (by decide)
  induction ds with
  | nil =>
    intro s ha _ _ _
    exact ⟨s, rfl, ha, rfl, by simp, by simp, by simp⟩
  | cons d ds ih =>
    intro s ha hc hds hmax
    have hlc : s.s_scanLine + P / 2 + (ds.length : Int) * (P / 2) ≤ 2147483647 := by
      have e : ((d :: ds).length : Int) * (P / 2) =
          P / 2 + (ds.length : Int) * (P / 2) := by
        rw [List.length_cons]; push_cast; ring
      rw [e] at hmax
      omega
    have hnn : (0 : Int) ≤ (ds.length : Int) * (P / 2) :=
      Int.mul_nonneg (Int.ofNat_nonneg _) h2
    obtain ⟨s1, h1, ha1, hf1, hc1, hv1, hr1⟩ :=
      interrupt_noReset P H s d hP hH ha hc (hds d (List.mem_cons_self d ds)) (by omega)
    obtain ⟨s2, h2', ha2, hf2, hc2, hv2, hr2⟩ := ih s1 ha1 (by omega)
      (fun e he => by rw [hf1]; exact hds e (List.mem_cons_of_mem d he))
      (by rw [hc1]; exact hlc)
    refine ⟨s2, ?_, ha2, hf2.trans hf1, ?_, ?_, ?_⟩
    · rw [interrupts_cons d ds s s1 h1]; exact h2'
    · rw [hc2, hc1, List.length_cons]; push_cast; ring
    · rw [hv2, hv1, hc1, List.length_cons]
      have e : s.s_scanLine + P / 2 + (ds.length : Int) * (P / 2) =
          s.s_scanLine + ((ds.length : Int) + 1) * (P / 2) := by ring
      rw [e]
      push_cast
      have hn : (0 : Int) ≤ (ds.length : Int) * (P / 2) :=
        Int.mul_nonneg (Int.ofNat_nonneg _) h2
      have hmono : H ≤ s.s_scanLine + P / 2 →
          H ≤ s.s_scanLine + ((ds.length : Int) + 1) * (P / 2) := by
        intro h; rw [← e]; omega
      by_cases hz : ds.length = 0
      · simp [hz]
      · have hpos : 0 < ds.length := Nat.pos_of_ne_zero hz
        by_cases hb : H ≤ s.s_scanLine + ((ds.length : Int) + 1) * (P / 2)
        · simp [hb, hpos]
        · have hb1 : ¬ H ≤ s.s_scanLine + P / 2 := fun h => hb (hmono h)
          simp [hb, hb1]
    · rw [hr2, hr1, hc1, List.length_cons, List.range_succ_eq_map, List.map_cons,
        List.map_map, List.append_assoc]
      congr 1
      have e0 : renderedAfter s.s_scanLine P H 0 = (s.s_scanLine + P / 2) % H := by
        unfold renderedAfter; simp
      rw [e0]
      simp only [List.singleton_append, List.cons.injEq, true_and]
      apply List.map_congr_left
      intro i _
      exact renderedAfter_succ s.s_scanLine P H i

theorem Armed_exampleArmed : Armed 2 6 exampleArmed :=
  ⟨by decide, rfl, rfl, ⟨_, rfl⟩, _, rfl, rfl⟩

/-! ## Past the top of the `int` range -/

theorem interrupts_append (a b : List Nat) (s s1 : State) (h : interrupts a s = some s1) :
    interrupts (a ++ b) s = interrupts b s1 := by
  unfold interrupts at h ⊢
  rw [List.foldlM_append, h]
  rfl

/-- From counter `0`, `N` interrupts for a descriptor `d` other than the frame-reset one
that keep the counter inside the `int` range, and then one more: the last one renders the
scanline line 332 computes from the counter `N * (P/2)` and leaves the counter at
`N * (P/2) + P/2` wrapped to 32 bits. -/
theorem interrupts_replicate_then_one (P H : Int) (hP : 1 ≤ P) (hH : 0 < H) (s : State)
    (ha : Armed P H s) (hc0 : s.s_scanLine = 0) (d : Nat) (hd : d ≠ s.s_frameResetDesc)
    (N : Nat) (hN : (N : Int) * (P / 2) ≤ 2147483647) :
    ∃ s2 init c, interrupts (List.replicate N d ++ [d]) s = some s2 ∧
      s2.calls = init ++ [c] ∧
      c.scanLine = isrScanLine ((N : Int) * (P / 2)) P H ∧
      s2.s_scanLine = wrapInt32 ((N : Int) * (P / 2) + P / 2) := by
  obtain ⟨s1, h1, ha1, hf1, hc1, _, _⟩ := interrupts_noReset P H hP hH (List.replicate N d)
    s ha (by rw [hc0]) (fun e he => by rw [List.eq_of_mem_replicate he]; exact hd)
    (by rw [List.length_replicate, hc0, zero_add]; exact hN)
  rw [List.length_replicate, hc0, zero_add] at hc1
  obtain ⟨tbl, htbl, _⟩ := ha1.2.2.2.2
  obtain ⟨s2, dest, h2, _, _, _, _, hc2, _, _, hcalls⟩ :=
    interrupt_any P H s1 d tbl hP hH ha1 htbl
  have hd1 : d ≠ s1.s_frameResetDesc := by rw [hf1]; exact hd
  simp only [if_neg hd1, hc1] at hc2 hcalls
  refine ⟨s2, s1.calls, _, ?_, hcalls, rfl, hc2⟩
  rw [interrupts_append _ [d] s s1 h1, interrupts_cons d [] s1 s2 h2]
  rfl

/-- After `run()` on the example controller (`P = 2`, `H = 6`), `2147483647` interrupts
away from the frame-reset descriptor bring the counter to `INT_MAX`; the next one passes
scanline `-2` to the callback and leaves the counter at `-2147483648`. -/
theorem overflow_after_run :
    ∃ s2 init c, interrupts (List.replicate 2147483647 101 ++ [101]) (run exampleArmed)
        = some s2 ∧
      s2.calls = init ++ [c] ∧ c.scanLine = -2 ∧ s2.s_scanLine = -2147483648 := by
  obtain ⟨s2, init, c, h2, hcalls, hc, hcount⟩ := interrupts_replicate_then_one 2 6
    (by decide) (by decide) (run exampleArmed) (Armed_run 2 6 _ Armed_exampleArmed)
    (run_scanLine _) 101 (by rw [run_frameResetDesc]; decide) 2147483647 (by decide)
  have e1 : isrScanLine (((2147483647 : Nat) : Int) * (2 / 2)) 2 6 = -2 := by decide
  have e2 : wrapInt32 (((2147483647 : Nat) : Int) * (2 / 2) + 2 / 2) = -2147483648 := by
    decide
  exact ⟨s2, init, c, h2, hcalls, hc.trans e1, hcount.trans e2⟩

/-! ## C2: the rendered sequence after `run()` -/

/-- C2 (as stated) fails: after `run()` on the example controller (`P = 2`, `H = 6`) one
interrupt away from the frame-reset descriptor renders scanline `1`, while the stated
sequence `(i * P/2) mod H`, `i = 0, 1, ...` starts with scanline `0`.  And the sequence
cannot be continued for every `K`: the counter is a 32-bit `int`, and the interrupt
number `2147483648` renders scanline `-2`, where the sequence shifted by one has
`(2147483648 * P/2) mod H = 2`. -/
theorem C2_counterexample :
    (∃ s1, interrupts [101] (run exampleArmed) = some s1 ∧
      renderedScanlines s1 = [1] ∧
      renderedScanlines s1 ≠
        (List.range 1).map (fun (i : Nat) => ((i : Int) * (2 / 2)) % 6)) ∧
    (∃ s2 init, interrupts (List.replicate 2147483647 101 ++ [101]) (run exampleArmed)
        = some s2 ∧
      renderedScanlines s2 = init ++ [-2] ∧
      (((2147483647 : Int) + 1) * (2 / 2)) % 6 = 2) := by
  constructor
  · obtain ⟨s1, h1, _, _, _, _, hr⟩ := interrupts_noReset 2 6 (by decide) (by decide) [101]
      (run exampleArmed) (Armed_run 2 6 _ Armed_exampleArmed)
      (by rw [run_scanLine]) (by
        intro d hd
        rw [run_frameResetDesc]
        simp only [List.mem_singleton] at hd
        subst hd
        decide) (by rw [run_scanLine]; decide)
    have hr1 : renderedScanlines s1 = [1] := by
      rw [hr, run_scanLine]
      simp only [renderedScanlines, run_calls]
      decide
    exact ⟨s1, h1, hr1, by rw [hr1]; decide⟩
  · obtain ⟨s2, init, c, h2, hcalls, hc, _⟩ := overflow_after_run
    refine ⟨s2, init.map (fun c => c.scanLine), h2, ?_, by decide⟩
    simp only [renderedScanlines, hcalls, List.map_append, List.map_cons, List.map_nil, hc]

/-- C2 (amended). For every pool size `P ≥ 2` (so for every power of two), viewport
height `H > 0` and number `K` of interrupts with `K * (P/2) ≤ 2147483647` (the counter
stays a 32-bit `int`): from the state left by `run()`, handling `K` interrupts none of
which is for the frame-reset descriptor succeeds and passes to the rendering callback, in
order, the scanlines `((i+1) * (P/2)) mod H` for `i = 0, ..., K-1`; the first one is
`(P/2) mod H`, half a pool ahead of scanline `0`. -/
theorem C2_rendered_sequence (P H : Int) (hP : 2 ≤ P) (hH : 0 < H) (s0 : State)
    (ha : Armed P H s0) (ds : List Nat) (hds : ∀ d ∈ ds, d ≠ s0.s_frameResetDesc)
    (hK : (ds.length : Int) * (P / 2) ≤ 2147483647) :
    ∃ s1, interrupts ds (run s0) = some s1 ∧
      renderedScanlines s1 = renderedScanlines s0 ++
        (List.range ds.length).map (fun (i : Nat) => (((i : Int) + 1) * (P / 2)) % H) := by
  obtain ⟨s1, h1, _, _, _, _, hr⟩ := interrupts_noReset P H (by omega) hH ds
    (run s0) (Armed_run P H s0 ha) (by rw [run_scanLine])
    (by intro d hd; rw [run_frameResetDesc]; exact hds d hd)
    (by rw [run_scanLine, zero_add]; exact hK)
  refine ⟨s1, h1, ?_⟩
  rw [hr, run_scanLine]
  simp only [renderedScanlines, run_calls]
  congr 1
  apply List.map_congr_left
  intro i _
  simp only [renderedAfter, zero_add]

/-- C2 (amended) evaluated on the example controller for three interrupts. -/
theorem C2_rendered_sequence_witness :
    ∃ s1, interrupts [101, 102, 103] (run exampleArmed) = some s1 ∧
      renderedScanlines s1 = renderedScanlines exampleArmed ++
        (List.range 3).map (fun (i : Nat) => (((i : Int) + 1) * (2 / 2)) % 6) :=
  C2_rendered_sequence 2 6 (by decide) (by decide) exampleArmed Armed_exampleArmed
    [101, 102, 103] (by decide) (by decide)

/-! ## C3: the slot written against the slots in transmission -/

theorem dmaSlot_eq (t P : Int) (ht : 0 ≤ t) (hP : 0 ≤ P) : dmaSlot t P = t % P :=
  Int.tmod_eq_emod ht hP

/-- For a power-of-two pool the mask `& (P - 1)` is the remainder modulo `P`. -/
theorem isrLineIndex_pow2 (r : Int) (k : Nat) (hr : 0 ≤ r) :
    isrLineIndex r (2 ^ k) = r % 2 ^ k := by
  obtain ⟨a, rfl⟩ := Int.eq_ofNat_of_zero_le hr
  have h1 : 1 ≤ 2 ^ k := Nat.one_le_two_pow
  have hm : ((2 : Int) ^ k - 1) = ((2 ^ k - 1 : Nat) : Int) := by
    rw [Nat.cast_sub h1]
    push_cast
    rfl
  unfold isrLineIndex
  rw [hm]
  show ((a &&& (2 ^ k - 1) : Nat) : Int) = _
  rw [Nat.and_pow_two_sub_one_eq_mod]
  push_cast
  rfl

/-- C3 (as stated) fails: with `P = 4` lines and a viewport of `H = 350` rows (a multiple
of `P/2` but not of `P`), at the interrupt point `s = 348` the handler renders scanline
`(348 + 2) mod 350 = 0` into slot `0`, the slot bound to row `t = 348`, which is being
transmitted in that interrupt period. -/
theorem C3_counterexample :
    (4 : Int) = 2 ^ 2 ∧ (0 : Int) < 350 ∧ (0 : Int) ≤ 348 ∧ (348 : Int) < 350 ∧
      (348 : Int) % (4 / 2) = 0 ∧ (348 : Int) ≤ 348 ∧ (348 : Int) < min (348 + 4 / 2) 350 ∧
      isrLineIndex (isrScanLine 348 4 350) 4 = 0 ∧ dmaSlot 348 4 = 0 ∧
      isrLineIndex (isrScanLine 348 4 350) 4 = dmaSlot 348 4 := by
  decide

/-- A positive multiple `H ≤ 2147483647` of a power of two `P = 2^k` leaves room for `P`
below `2^31`. -/
theorem multiple_below_int_max (k : Nat) (P H : Int) (hPk : P = 2 ^ k) (hH : 0 < H)
    (hdiv : P ∣ H) (hmax : H ≤ 2147483647) : H + P ≤ 2147483648 := by
  have hpos : (0 : Int) < P := by rw [hPk]; positivity
  have hPH : P ≤ H := Int.le_of_dvd hH hdiv
  by_cases hk : k ≤ 31
  · have h31 : (2147483648 : Int) = P * 2 ^ (31 - k) := by
      rw [hPk, ← pow_add]
      have e : k + (31 - k) = 31 := by omega
      rw [e]
      norm_num
    have hd : P ∣ 2147483648 - H := Int.dvd_sub ⟨_, h31⟩ hdiv
    have := Int.le_of_dvd (by omega) hd
    omega
  · have h32 : (2 : Int) ^ 32 ≤ 2 ^ k := pow_le_pow_right₀ (by decide) (by omega)
    have e32 : (2 : Int) ^ 32 = 4294967296 := by norm_num
    rw [← hPk] at h32
    omega

/-- C3 (amended). Producer and consumer never target the same pool slot when the viewport
height is a multiple of the pool size: for every power-of-two pool size `P ≥ 2`, every
height `H > 0` (an `int`, so `H ≤ 2147483647`) with `P ∣ H` and every interrupt point `s`
with `0 ≤ s < H`, the slot the handler writes, `((s + P/2) mod H) & (P-1)`, differs from
the slot `t mod P` bound by `onSetupDMABuffer` to each visible row `t` with
`s ≤ t < min (s + P/2) H`.  (The alignment `s mod (P/2) = 0` of the interrupt point is not
needed for this; under these conditions the 32-bit sum `s + P/2` does not overflow.) -/
theorem C3_slots_disjoint (k : Nat) (P H s t : Int) (hk : 1 ≤ k) (hPk : P = 2 ^ k)
    (hH : 0 < H) (hmax : H ≤ 2147483647) (hdiv : P ∣ H) (hs0 : 0 ≤ s) (hst : s ≤ t)
    (ht : t < min (s + P / 2) H) :
    isrLineIndex (isrScanLine s P H) P ≠ dmaSlot t P := by
  have hroom := multiple_below_int_max k P H hPk hH hdiv hmax
  obtain ⟨j, rfl⟩ : ∃ j, k = j + 1 := ⟨k - 1, by omega⟩
  have hpos : (0 : Int) < 2 ^ j := by positivity
  have hP2 : P = 2 * 2 ^ j := by rw [hPk, pow_succ]; ring
  have hhalf : P / 2 = 2 ^ j := by rw [hP2]; omega
  have ht1 : t < s + P / 2 := lt_of_lt_of_le ht (min_le_left _ _)
  have ht2 : t < H := lt_of_lt_of_le ht (min_le_right _ _)
  have hr : isrScanLine s P H = (s + P / 2) % H :=
    isrScanLine_eq s P H hs0 (by omega) hH (by omega)
  have hr0 : 0 ≤ (s + P / 2) % H := Int.emod_nonneg _ (by omega)
  rw [hr, dmaSlot_eq t P (by omega) (by omega)]
  have hidx : isrLineIndex ((s + P / 2) % H) P = ((s + P / 2) % H) % P := by
    rw [hPk]; exact isrLineIndex_pow2 _ _ (by rw [← hPk]; exact hr0)
  rw [hidx, Int.emod_emod_of_dvd _ hdiv]
  intro heq
  have hz : (s + P / 2 - t) % P = 0 := Int.emod_eq_emod_iff_emod_sub_eq_zero.mp heq
  have hd : P ∣ s + P / 2 - t := Int.dvd_of_emod_eq_zero hz
  have hle : P ≤ s + P / 2 - t := Int.le_of_dvd (by omega) hd
  omega

/-- C3 (amended) evaluated for `P = 4`, `H = 352`, `s = 350`, `t = 351`. -/
theorem C3_slots_disjoint_witness :
    isrLineIndex (isrScanLine 350 4 352) 4 ≠ dmaSlot 351 4 :=
  C3_slots_disjoint 2 4 352 350 351 (by decide) (by decide) (by decide) (by decide)
    (by decide) (by decide) (by decide) (by decide)

/-! ## Any invocation of the handler -/

/-- An invocation with no `out_eof` pending only acknowledges the interrupt status. -/
theorem invoke_none (s : State) :
    invoke none s = some (clearInterruptStatus
      { s with I2S1 := { s.I2S1 with int_st_out_eof := false } }) := by
  unfold invoke ISRHandler
  simp

theorem invocations_nil (s : State) : invocations [] s = some s := rfl

theorem invocations_cons (e : Option Nat) (es : List (Option Nat)) (s s1 : State)
    (h : invoke e s = some s1) : invocations (e :: es) s = invocations es s1 := by
  unfold invocations
  rw [List.foldlM_cons, h]
  rfl

/-- A run of interrupts is the sequence of invocations with `out_eof` pending each time. -/
theorem interrupts_eq_invocations (ds : List Nat) (s : State) :
    interrupts ds s = invocations (ds.map some) s := by
  unfold interrupts invocations
  rw [List.foldlM_map]
  rfl

theorem pendingCount_none (es : List (Option Nat)) :
    pendingCount (none :: es) = pendingCount es := rfl

theorem pendingCount_some (d : Nat) (es : List (Option Nat)) :
    pendingCount (some d :: es) = pendingCount es + 1 := rfl

/-- A sequence of invocations none of which handles the frame-reset descriptor, while the
counter fits a 32-bit `int`: the counter advances by `P/2` for each pending `out_eof`, and
the vertical-sync flag is raised exactly when it was raised before or the counter has
reached `H`. -/
theorem invocations_noReset (P H : Int) (hP : 1 ≤ P) (hH : 0 < H) (es : List (Option Nat)) :
    ∀ s : State, Armed P H s → 0 ≤ s.s_scanLine →
      (∀ e ∈ es, e ≠ some s.s_frameResetDesc) →
      s.s_scanLine + (pendingCount es : Int) * (P / 2) ≤ 2147483647 →
      ∃ s1, invocations es s = some s1 ∧ Armed P H s1 ∧
        s1.s_frameResetDesc = s.s_frameResetDesc ∧
        s1.s_scanLine = s.s_scanLine + (pendingCount es : Int) * (P / 2) ∧
        s1.s_VSync = (s.s_VSync || (decide (0 < pendingCount es) &&
          decide (H ≤ s.s_scanLine + (pendingCount es : Int) * (P / 2)))) := by
  have h2 : 0 ≤ P / 2 := Int.ediv_nonneg (by omega) (by decide)
  induction es with
  | nil =>
    intro s ha _ _ _
    exact ⟨s, rfl, ha, rfl, by simp [pendingCount], by simp [pendingCount]⟩
  | cons e es ih =>
    intro s ha hc hes hmax
    cases e with
    | none =>
      obtain ⟨s2, h2', ha2, hf2, hc2, hv2⟩ := ih
        (clearInterruptStatus { s with I2S1 := { s.I2S1 with int_st_out_eof := false } })
        ha hc (fun e he => hes e (List.mem_cons_of_mem _ he))
        (by rw [pendingCount_none] at hmax; exact hmax)
      refine ⟨s2, ?_, ha2, hf2, ?_, ?_⟩
      · rw [invocations_cons none es s _ (invoke_none s)]; exact h2'
      · rw [hc2, pendingCount_none]; rfl
      · rw [hv2, pendingCount_none]; rfl
    | some d =>
      have hd : d ≠ s.s_frameResetDesc := fun h =>
        hes (some d) (List.mem_cons_self _ _) (by rw [h])
      have hlc : s.s_scanLine + P / 2 + (pendingCount es : Int) * (P / 2) ≤ 2147483647 := by
        have e : (pendingCount (some d :: es) : Int) * (P / 2) =
            P / 2 + (pendingCount es : Int) * (P / 2) := by
          rw [pendingCount_some]; push_cast; ring
        rw [e] at hmax
        omega
      have hnn : (0 : Int) ≤ (pendingCount es : Int) * (P / 2) :=
        Int.mul_nonneg (Int.ofNat_nonneg _) h2
      obtain ⟨s1, h1, ha1, hf1, hc1, hv1, _⟩ :=
        interrupt_noReset P H s d hP hH ha hc hd (by omega)
      obtain ⟨s2, h2', ha2, hf2, hc2, hv2⟩ := ih s1 ha1 (by omega)
        (fun e he => by rw [hf1]; exact hes e (List.mem_cons_of_mem _ he))
        (by rw [hc1]; exact hlc)
      refine ⟨s2, ?_, ha2, hf2.trans hf1, ?_, ?_⟩
      · rw [invocations_cons (some d) es s s1 h1]; exact h2'
      · rw [hc2, hc1, pendingCount_some]; push_cast; ring
      · rw [hv2, hv1, hc1, pendingCount_some]
        have e : s.s_scanLine + P / 2 + (pendingCount es : Int) * (P / 2) =
            s.s_scanLine + ((pendingCount es : Int) + 1) * (P / 2) := by ring
        rw [e]
        push_cast
        have hn : (0 : Int) ≤ (pendingCount es : Int) * (P / 2) :=
          Int.mul_nonneg (Int.ofNat_nonneg _) h2
        have hmono : H ≤ s.s_scanLine + P / 2 →
            H ≤ s.s_scanLine + ((pendingCount es : Int) + 1) * (P / 2) := by
          intro h; rw [← e]; omega
        by_cases hz : pendingCount es = 0
        · simp [hz]
        · have hpos : 0 < pendingCount es := Nat.pos_of_ne_zero hz
          by_cases hb : H ≤ s.s_scanLine + ((pendingCount es : Int) + 1) * (P / 2)
          · simp [hb, hpos]
          · have hb1 : ¬ H ≤ s.s_scanLine + P / 2 := fun h => hb (hmono h)
            simp [hb, hb1]

/-- One invocation on a configured controller, whatever the counter: the handler returns,
the configuration is kept, and unless it handles the frame-reset descriptor a raised
vertical-sync flag stays raised. -/
theorem invoke_any (P H : Int) (hP : 1 ≤ P) (hH : 0 < H) (s : State) (e : Option Nat)
    (ha : Armed P H s) :
    ∃ s1, invoke e s = some s1 ∧ Armed P H s1 ∧
      s1.s_frameResetDesc = s.s_frameResetDesc ∧
      (e ≠ some s.s_frameResetDesc → s.s_VSync = true → s1.s_VSync = true) := by
  cases e with
  | none => exact ⟨_, invoke_none s, ha, rfl, fun _ h => h⟩
  | some d =>
    obtain ⟨tbl, htbl, _⟩ := ha.2.2.2.2
    obtain ⟨s1, dest, h1, ha1, hf1, _, _, _, hv1, _, _⟩ :=
      interrupt_any P H s d tbl hP hH ha htbl
    refine ⟨s1, h1, ha1, hf1, ?_⟩
    intro hne hv
    have hd : d ≠ s.s_frameResetDesc := fun h => hne (by rw [h])
    rw [hv1, if_neg hd, hv]
    rfl

/-- Any sequence of invocations on a configured controller, whatever the counter: the
handler returns every time, and every callback invocation it makes writes `pool[i]` for
the pool index `i = scanLine & (P-1)`, which lies in `0..P-1`.  When the counter starts
non-negative and its sums fit a 32-bit `int` along the sequence, the scanline of every
callback invocation lies in `0..H-1` as well. -/
theorem invocations_calls (P H : Int) (hP : 1 ≤ P) (hH : 0 < H) (tbl : LineTable)
    (es : List (Option Nat)) :
    ∀ s : State, Armed P H s → s.m_lines = some tbl →
      ∃ s1 new, invocations es s = some s1 ∧ Armed P H s1 ∧
        s1.s_frameResetDesc = s.s_frameResetDesc ∧ s1.calls = s.calls ++ new ∧
        (∀ c ∈ new, 0 ≤ isrLineIndex c.scanLine P ∧ isrLineIndex c.scanLine P < P ∧
          tableAt tbl.entries (isrLineIndex c.scanLine P) = some c.dest) ∧
        (0 ≤ s.s_scanLine →
          counterInRange (P / 2) s.s_frameResetDesc s.s_scanLine es = true →
          ∀ c ∈ new, CallInRange P H tbl c) := by
  have h2 : 0 ≤ P / 2 := Int.ediv_nonneg (by omega) (by decide)
  induction es with
  | nil =>
    intro s ha _
    exact ⟨s, [], rfl, ha, rfl, by simp, by simp, by simp⟩
  | cons e es ih =>
    intro s ha htbl
    cases e with
    | none =>
      obtain ⟨s2, new, h2', ha2, hf2, hcalls, hpool, hrange⟩ := ih
        (clearInterruptStatus { s with I2S1 := { s.I2S1 with int_st_out_eof := false } })
        ha htbl
      exact ⟨s2, new, by rw [invocations_cons none es s _ (invoke_none s)]; exact h2',
        ha2, hf2, hcalls, hpool, fun hc hin => hrange hc hin⟩
    | some d =>
      obtain ⟨s1, dest, h1, ha1, hf1, hl1, _, hc1, _, hdest, hcalls1⟩ :=
        interrupt_any P H s d tbl hP hH ha htbl
      obtain ⟨s2, new, h2', ha2, hf2, hcalls2, hpool, hrange⟩ := ih s1 ha1 (hl1.trans htbl)
      refine ⟨s2, ⟨s.m_drawScanlineArg, dest,
        isrScanLine (if d = s.s_frameResetDesc then 0 else s.s_scanLine) P H⟩ :: new,
        ?_, ha2, hf2.trans hf1, ?_, ?_, ?_⟩
      · rw [invocations_cons (some d) es s s1 (by exact h1)]; exact h2'
      · rw [hcalls2, hcalls1, List.append_assoc]; rfl
      · intro c hmem
        rcases List.mem_cons.mp hmem with hc' | hc'
        · subst hc'
          have hb := isrLineIndex_bounds_any
            (isrScanLine (if d = s.s_frameResetDesc then 0 else s.s_scanLine) P H) P hP
          exact ⟨hb.1, hb.2, hdest⟩
        · exact hpool c hc'
      · intro hc hin
        have hc0 : 0 ≤ (if d = s.s_frameResetDesc then 0 else s.s_scanLine) := by
          split
          · exact le_refl 0
          · exact hc
        simp only [counterInRange, Bool.and_eq_true, decide_eq_true_eq] at hin
        obtain ⟨hmax, hrest⟩ := hin
        have hr := isrScanLine_eq (if d = s.s_frameResetDesc then 0 else s.s_scanLine) P H
          hc0 (by omega) hH hmax
        rw [wrapInt32_of_range _ (by omega) hmax] at hc1
        have hall := hrange (by rw [hc1]; omega) (by rw [hf1, hc1]; exact hrest)
        intro c hmem
        rcases List.mem_cons.mp hmem with hc' | hc'
        · subst hc'
          have hb := isrLineIndex_bounds_any
            (isrScanLine (if d = s.s_frameResetDesc then 0 else s.s_scanLine) P H) P hP
          refine ⟨?_, ?_, hb.1, hb.2, hdest⟩
          · show 0 ≤ isrScanLine _ P H
            rw [hr]; exact Int.emod_nonneg _ (by omega)
          · show isrScanLine _ P H < H
            rw [hr]; exact Int.emod_lt_of_pos _ hH
        · exact hall c hc'

theorem Armed_exampleWholeFrame : Armed 4 2 exampleWholeFrame :=
  ⟨by decide, rfl, rfl, ⟨_, rfl⟩, _, rfl, rfl⟩

/-! ## C4: the vertical-sync flag -/

/-- C4 (as stated) fails: on a controller that renders a whole frame per callback
(`H = 2`, `P = 4`, so `P/2 = H`) the invocation that handles the frame-reset descriptor,
right after `run()`, leaves `VSync()` true, not false. -/
theorem C4_counterexample :
    ∃ s1, invoke (some 100) (run exampleWholeFrame) = some s1 ∧
      (run exampleWholeFrame).s_frameResetDesc = 100 ∧ VSync s1 = true := by
  obtain ⟨s1, h1, _, _, _, hv, _⟩ := interrupt_reset 4 2 (run exampleWholeFrame)
    (by decide) (by decide) (Armed_run 4 2 _ Armed_exampleWholeFrame)
  have hf : (run exampleWholeFrame).s_frameResetDesc = 100 := by
    rw [run_frameResetDesc]; rfl
  rw [hf] at h1
  exact ⟨s1, h1, hf, by rw [VSync, hv]; decide⟩

/-- C4 (amended). For every pool size `P ≥ 2` and viewport height `H > P/2`, from every
configured state: `VSync()` is false immediately after an invocation that handled the
frame-reset descriptor; any further invocations `es` that do not handle it return; while
the counter fits a 32-bit `int` (`n` of them had `out_eof` pending and
`(n+1) * (P/2) ≤ 2147483647`), the counter is `(n+1) * (P/2)` and `VSync()` is true
exactly when that counter has reached `H`, so it becomes true at the first invocation
after which the counter has reached `H`; and once true it is still true after one more
invocation that does not handle the frame-reset descriptor, whatever the counter. -/
theorem C4_VSync (P H : Int) (hP : 2 ≤ P) (hH : P / 2 < H) (s : State)
    (ha : Armed P H s) (es : List (Option Nat))
    (hes : ∀ e ∈ es, e ≠ some s.s_frameResetDesc) :
    ∃ s1 s2, invoke (some s.s_frameResetDesc) s = some s1 ∧ VSync s1 = false ∧
      invocations es s1 = some s2 ∧
      (((pendingCount es : Int) + 1) * (P / 2) ≤ 2147483647 →
        s2.s_scanLine = ((pendingCount es : Int) + 1) * (P / 2) ∧
        VSync s2 = decide (H ≤ s2.s_scanLine)) ∧
      (VSync s2 = true → ∀ e : Option Nat, e ≠ some s.s_frameResetDesc →
        ∃ s3, invoke e s2 = some s3 ∧ VSync s3 = true) := by
  have h2 : 0 ≤ P / 2 := Int.ediv_nonneg (by omega) (by decide)
  have hH0 : 0 < H := by omega
  obtain ⟨s1, h1, ha1, hf1, hc1, hv1, _⟩ := interrupt_reset P H s (by omega) hH0 ha
  have hv1f : s1.s_VSync = false := by rw [hv1]; simp; omega
  obtain ⟨tbl, htbl, _⟩ := ha1.2.2.2.2
  obtain ⟨s2, _, h2', ha2, hf2, _, _, _⟩ :=
    invocations_calls P H (by omega) hH0 tbl es s1 ha1 htbl
  refine ⟨s1, s2, h1, hv1f, h2', ?_, ?_⟩
  · intro hmax
    obtain ⟨s2', h2'', _, _, hc2, hv2⟩ := invocations_noReset P H (by omega) hH0 es s1 ha1
      (by omega) (by rw [hf1]; exact hes) (by rw [hc1]; linarith)
    have hs2 : s2' = s2 := Option.some.inj (h2''.symm.trans h2')
    subst hs2
    have hc2e : s2'.s_scanLine = ((pendingCount es : Int) + 1) * (P / 2) := by
      rw [hc2, hc1]; ring
    have hn : (0 : Int) ≤ (pendingCount es : Int) * (P / 2) :=
      Int.mul_nonneg (Int.ofNat_nonneg _) h2
    refine ⟨hc2e, ?_⟩
    rw [VSync, hv2, hv1f, hc2]
    by_cases hz : pendingCount es = 0
    · simp [hz, hc1]; omega
    · simp [Nat.pos_of_ne_zero hz]
  · intro hv e he
    obtain ⟨s3, h3, _, _, hv3⟩ := invoke_any P H (by omega) hH0 s2 e ha2
    exact ⟨s3, h3, hv3 (by rw [hf2, hf1]; exact he) hv⟩

/-- C4 (amended) evaluated on the example controller (`P = 2`, `H = 6`) for a frame reset
followed by five interrupts and one invocation with nothing pending. -/
theorem C4_VSync_witness :
    ∃ s1 s2, invoke (some exampleArmed.s_frameResetDesc) exampleArmed = some s1 ∧
      VSync s1 = false ∧
      invocations [some 101, some 102, none, some 103, some 104, some 105] s1 = some s2 ∧
      (((pendingCount
          [some 101, some 102, none, some 103, some 104, some 105] : Int) + 1) * (2 / 2)
          ≤ 2147483647 →
        s2.s_scanLine = ((pendingCount
          [some 101, some 102, none, some 103, some 104, some 105] : Int) + 1) * (2 / 2) ∧
        VSync s2 = decide (6 ≤ s2.s_scanLine)) ∧
      (VSync s2 = true → ∀ e : Option Nat, e ≠ some exampleArmed.s_frameResetDesc →
        ∃ s3, invoke e s2 = some s3 ∧ VSync s3 = true) :=
  C4_VSync 2 6 (by decide) (by decide) exampleArmed Armed_exampleArmed
    [some 101, some 102, none, some 103, some 104, some 105] (by decide)

/-! ## C5: `setResolution` without a callback -/

/-- C5. In every state with no rendering callback registered, and in particular in the
state the constructor leaves, `setResolution` returns the state unchanged for every timing
descriptor, viewport size and `doubleBuffered` flag, whatever the base-class
`setResolution` would do: `m_lines` stays null, the pool size, the counter and the
vertical-sync flag are unchanged, and `run()` is not invoked even when `m_autoRun` is
true (the stream is not started, no interrupt handler is installed). -/
theorem C5_setResolution_without_callback {VGATimings : Type}
    (baseSetResolution : VGATimings → Int → Int → Bool → State → State)
    (timings : VGATimings) (viewPortWidth viewPortHeight : Int) (doubleBuffered : Bool)
    (s : State) (hcb : s.m_drawScanlineCallback = none) :
    setResolution baseSetResolution timings viewPortWidth viewPortHeight doubleBuffered s
        = s ∧
      (∀ (autoRun : Bool) (base : VGABaseController),
        setResolution baseSetResolution timings viewPortWidth viewPortHeight doubleBuffered
            (VGADirectController autoRun base) = VGADirectController autoRun base ∧
          (VGADirectController autoRun base).m_lines = none ∧
          (VGADirectController autoRun base).m_linesCount = 2 ∧
          (VGADirectController autoRun base).intrAllocs = 0 ∧
          (VGADirectController autoRun base).base.streamStarted = base.streamStarted ∧
          (run (VGADirectController autoRun base)).base.streamStarted = true) := by
  constructor
  · unfold setResolution
    rw [hcb]
  · intro autoRun base
    refine ⟨rfl, rfl, rfl, rfl, rfl, ?_⟩
    unfold run startGPIOStream esp_intr_alloc_pinnedToCore clearInterruptStatus
    dsimp only
    split <;> rfl

/-- C5 evaluated on the constructed controller with `autoRun = true` and a base-class
`setResolution` that would set the viewport and the pool size. -/
theorem C5_setResolution_without_callback_witness :
    setResolution (fun (_ : Nat) w h _ st =>
          { st with base := { st.base with m_viewPortWidth := w, m_viewPortHeight := h },
                    m_linesCount := 8 })
        0 640 480 false (VGADirectController true VGABaseController.initial)
        = VGADirectController true VGABaseController.initial ∧
      (∀ (autoRun : Bool) (base : VGABaseController),
        setResolution (fun (_ : Nat) w h _ st =>
            { st with base := { st.base with m_viewPortWidth := w, m_viewPortHeight := h },
                      m_linesCount := 8 })
            0 640 480 false (VGADirectController autoRun base)
            = VGADirectController autoRun base ∧
          (VGADirectController autoRun base).m_lines = none ∧
          (VGADirectController autoRun base).m_linesCount = 2 ∧
          (VGADirectController autoRun base).intrAllocs = 0 ∧
          (VGADirectController autoRun base).base.streamStarted = base.streamStarted ∧
          (run (VGADirectController autoRun base)).base.streamStarted = true) :=
  C5_setResolution_without_callback _ 0 640 480 false
    (VGADirectController true VGABaseController.initial) rfl

/-! ## C8: `run()` installs the interrupt handler once -/

theorem run_run (s : State) : run (run s) = run s := by
  obtain ⟨⟨w, h, handle, db, started⟩, lc, lines, cb, arg, ar, sl, vs, frd, dma, i2s, heap,
    descs, mem, n, calls⟩ := s
  cases handle <;> rfl

theorem run_iterate_succ (k : Nat) : ∀ s : State, run^[k + 1] s = run s := by
  induction k with
  | zero => intro s; rfl
  | succ k ih =>
    intro s
    rw [Function.iterate_succ_apply, ih (run s), run_run]

theorem run_intrAllocs (s : State) :
    (run s).intrAllocs = s.intrAllocs + (if s.base.m_isr_handle = none then 1 else 0) := by
  obtain ⟨⟨w, h, handle, db, started⟩, lc, lines, cb, arg, ar, sl, vs, frd, dma, i2s, heap,
    descs, mem, n, calls⟩ := s
  cases handle <;> rfl

theorem run_isr_handle (s : State) : (run s).base.m_isr_handle ≠ none := by
  obtain ⟨⟨w, h, handle, db, started⟩, lc, lines, cb, arg, ar, sl, vs, frd, dma, i2s, heap,
    descs, mem, n, calls⟩ := s
  cases handle <;> simp [run, startGPIOStream, esp_intr_alloc_pinnedToCore,
    clearInterruptStatus]

/-- C8. For every controller state and every `k ≥ 1`, the state after `k` consecutive
`run()` calls is the state after a single one (so `run(); run()` equals `run()`): the
counter is `0`, the handler handle is set, and the number of handlers installed is the
one after the first call: one more than before if the handle was null, unchanged if it
was already set.  On a controller that had no handler installed the handler has been
installed exactly once. -/
theorem C8_run_idempotent (s : State) (k : Nat) (hk : 1 ≤ k) :
    run^[k] s = run s ∧ run (run s) = run s ∧
      (run^[k] s).s_scanLine = 0 ∧
      (run^[k] s).base.m_isr_handle = (run s).base.m_isr_handle ∧
      (run s).base.m_isr_handle ≠ none ∧
      (run^[k] s).intrAllocs =
        s.intrAllocs + (if s.base.m_isr_handle = none then 1 else 0) ∧
      (s.base.m_isr_handle = none → s.intrAllocs = 0 → (run^[k] s).intrAllocs = 1) := by
  obtain ⟨j, rfl⟩ : ∃ j, k = j + 1 := ⟨k - 1, by omega⟩
  have hk1 : run^[j + 1] s = run s := run_iterate_succ j s
  rw [hk1]
  refine ⟨rfl, run_run s, run_scanLine s, rfl, run_isr_handle s, run_intrAllocs s, ?_⟩
  intro h0 h1
  rw [run_intrAllocs, h0, h1]
  rfl

/-- C8 evaluated on the constructed controller for three consecutive `run()` calls. -/
theorem C8_run_idempotent_witness :
    run^[3] (VGADirectController false VGABaseController.initial)
        = run (VGADirectController false VGABaseController.initial) ∧
      run (run (VGADirectController false VGABaseController.initial))
        = run (VGADirectController false VGABaseController.initial) ∧
      (run^[3] (VGADirectController false VGABaseController.initial)).s_scanLine = 0 ∧
      (run^[3] (VGADirectController false VGABaseController.initial)).base.m_isr_handle
        = (run (VGADirectController false VGABaseController.initial)).base.m_isr_handle ∧
      (run (VGADirectController false VGABaseController.initial)).base.m_isr_handle
        ≠ none ∧
      (run^[3] (VGADirectController false VGABaseController.initial)).intrAllocs =
        (VGADirectController false VGABaseController.initial).intrAllocs +
          (if (VGADirectController false VGABaseController.initial).base.m_isr_handle = none
            then 1 else 0) ∧
      ((VGADirectController false VGABaseController.initial).base.m_isr_handle = none →
        (VGADirectController false VGABaseController.initial).intrAllocs = 0 →
        (run^[3] (VGADirectController false VGABaseController.initial)).intrAllocs = 1) :=
  C8_run_idempotent (VGADirectController false VGABaseController.initial) 3 (by decide)

/-! ## The line-buffer pool -/

/-- The pool of `exampleArmed` is the one `allocateViewPort` builds on the constructed
controller with a `4 × 6` viewport. -/
theorem exampleArmed_from_interface :
    ∃ s, allocateViewPort (setDrawScanlineCallback (some exampleCallback) 0
        (VGADirectController false
          { VGABaseController.initial with m_viewPortWidth := 4, m_viewPortHeight := 6 }))
        = some s ∧
      s.m_lines = exampleArmed.m_lines ∧ s.heap = exampleArmed.heap ∧
      s.m_linesCount = exampleArmed.m_linesCount ∧
      s.s_DMALines = some { addr := 34, entries := [0, 0, 0, 0, 0, 0] } :=
  ⟨_, rfl, rfl, rfl, rfl, rfl⟩

/-- The pool of `exampleWholeFrame` is the one `allocateViewPort` builds after
`setScanlinesPerCallBack(2)` on the constructed controller with a `4 × 2` viewport. -/
theorem exampleWholeFrame_from_interface :
    ∃ s, allocateViewPort (setScanlinesPerCallBack 2
        (setDrawScanlineCallback (some exampleCallback) 0
          (VGADirectController false
            { VGABaseController.initial with m_viewPortWidth := 4, m_viewPortHeight := 2 })))
        = some s ∧
      s.m_lines = exampleWholeFrame.m_lines ∧ s.heap = exampleWholeFrame.heap ∧
      s.m_linesCount = exampleWholeFrame.m_linesCount ∧
      s.s_DMALines = some { addr := 50, entries := [0, 0] } :=
  ⟨_, rfl, rfl, rfl, rfl, rfl⟩

/-- What `allocateViewPort` leaves: a table of `m_linesCount` entries whose first entry is
the pixel region, and three distinct live blocks. -/
theorem allocateViewPort_allocated (s : State) (hP : 0 < s.m_linesCount)
    (hnext : 0 < s.heap.next) (hnd : s.heap.live.Nodup)
    (hfresh : ∀ a ∈ s.heap.live, a < s.heap.next) :
    ∃ s1 tbl line0 rest, allocateViewPort s = some s1 ∧ s1.m_lines = some tbl ∧
      tbl.entries = line0 :: rest ∧ (tbl.entries.length : Int) = s.m_linesCount ∧
      s1.heap.live.Nodup ∧ line0 ∈ s1.heap.live ∧ tbl.addr ∈ s1.heap.live ∧
      line0 ≠ tbl.addr ∧ line0 ≠ 0 ∧ tbl.addr ≠ 0 ∧
      (∀ dma, s1.s_DMALines = some dma →
        dma.addr ∈ s1.heap.live ∧ dma.addr ≠ line0 ∧ dma.addr ≠ tbl.addr) := by
  obtain ⟨n, hn⟩ : ∃ n : Nat, s.m_linesCount.toNat = n + 1 := ⟨s.m_linesCount.toNat - 1, by omega⟩
  have hres : allocateViewPort s = some { s with
      m_lines := some
        { addr := s.heap.next
          entries := (List.range s.m_linesCount.toNat).map (fun (i : Nat) =>
            (((s.heap.next + 4 * s.m_linesCount.toNat + 1 : Nat) : Int) +
              (i : Int) * s.base.m_viewPortWidth).toNat) }
      s_DMALines := some
        { addr := s.heap.next + 4 * s.m_linesCount.toNat + 1 +
            (s.base.m_viewPortWidth * s.m_linesCount).toNat + 1
          entries := List.replicate s.base.m_viewPortHeight.toNat 0 }
      heap :=
        { live := (s.heap.next + 4 * s.m_linesCount.toNat + 1 +
              (s.base.m_viewPortWidth * s.m_linesCount).toNat + 1) ::
            (s.heap.next + 4 * s.m_linesCount.toNat + 1) :: s.heap.next :: s.heap.live
          next := s.heap.next + 4 * s.m_linesCount.toNat + 1 +
            (s.base.m_viewPortWidth * s.m_linesCount).toNat + 1 +
            4 * s.base.m_viewPortHeight.toNat + 1 } } := by
    unfold allocateViewPort heap_caps_malloc
    simp only [not_le.mpr hP, if_false]
  refine ⟨_, _, s.heap.next + 4 * s.m_linesCount.toNat + 1,
    (List.range n).map (fun (i : Nat) =>
      (((s.heap.next + 4 * s.m_linesCount.toNat + 1 : Nat) : Int) +
        ((i + 1 : Nat) : Int) * s.base.m_viewPortWidth).toNat),
    hres, rfl, ?_, ?_, ?_, ?_, ?_, ?_, ?_, ?_, ?_⟩
  · dsimp only
    rw [hn, List.range_succ_eq_map, List.map_cons, List.map_map]
    congr 1
    simp
    omega
  · dsimp only
    rw [List.length_map, List.length_range]
    omega
  · dsimp only
    have h1 : ∀ a ∈ s.heap.live, a ≠ s.heap.next := fun a ha => by
      have := hfresh a ha; omega
    have h2 : ∀ a ∈ s.heap.live, a ≠ s.heap.next + 4 * s.m_linesCount.toNat + 1 := fun a ha => by
      have := hfresh a ha; omega
    have h3 : ∀ a ∈ s.heap.live, a ≠ s.heap.next + 4 * s.m_linesCount.toNat + 1 +
        (s.base.m_viewPortWidth * s.m_linesCount).toNat + 1 := fun a ha => by
      have := hfresh a ha; omega
    refine List.nodup_cons.mpr ⟨?_, List.nodup_cons.mpr ⟨?_, List.nodup_cons.mpr ⟨?_, hnd⟩⟩⟩
    · intro hm
      rcases List.mem_cons.mp hm with h | hm
      · omega
      rcases List.mem_cons.mp hm with h | hm
      · omega
      exact h3 _ hm rfl
    · intro hm
      rcases List.mem_cons.mp hm with h | hm
      · omega
      exact h2 _ hm rfl
    · intro hm
      exact h1 _ hm rfl
  · simp
  · simp
  · dsimp only; omega
  · omega
  · dsimp only; omega
  · intro dma hd
    have hd' := (Option.some.inj hd).symm
    subst hd'
    dsimp only
    refine ⟨by simp, by omega, by omega⟩
/-! ## C9: freeing the line-buffer pool -/

theorem heap_caps_free_live (p : Nat) (h : Heap) (hp : p ≠ 0) (hl : p ∈ h.live) :
    heap_caps_free p h = some { h with live := h.live.erase p } := by
  unfold heap_caps_free
  rw [if_neg hp, if_pos hl]

/-- With a null table `freeViewPort` faults: `m_lines[0]` is read through `m_lines`. -/
theorem freeViewPort_null (f : VGABaseController → VGABaseController) (s : State)
    (h : s.m_lines = none) : freeViewPort f s = none := by
  unfold freeViewPort
  simp only [h]

/-- With the pool allocated `freeViewPort` returns: the pixel region and the pointer
table are released and the table pointer is null. -/
theorem freeViewPort_allocated (f : VGABaseController → VGABaseController) (s : State)
    (tbl : LineTable) (line0 : Nat) (rest : List Nat)
    (htbl : s.m_lines = some tbl) (hent : tbl.entries = line0 :: rest)
    (hnd : s.heap.live.Nodup) (h0 : line0 ∈ s.heap.live) (h1 : tbl.addr ∈ s.heap.live)
    (hne : line0 ≠ tbl.addr) (hz0 : line0 ≠ 0) (hz1 : tbl.addr ≠ 0)
    (hdma : ∀ dma, s.s_DMALines = some dma →
      dma.addr ∈ s.heap.live ∧ dma.addr ≠ line0 ∧ dma.addr ≠ tbl.addr) :
    ∃ s1, freeViewPort f s = some s1 ∧ s1.m_lines = none ∧
      line0 ∉ s1.heap.live ∧ tbl.addr ∉ s1.heap.live ∧ s1.base = f s.base := by
  have hidx : tableAt tbl.entries 0 = some line0 := by
    rw [hent]; simp [tableAt]
  have hf0 := heap_caps_free_live line0 s.heap hz0 h0
  have h1' : tbl.addr ∈ (s.heap.live.erase line0) :=
    (List.mem_erase_of_ne (Ne.symm hne)).mpr h1
  have hf1 := heap_caps_free_live tbl.addr { s.heap with live := s.heap.live.erase line0 }
    hz1 h1'
  have hnd1 : (s.heap.live.erase line0).Nodup := hnd.erase line0
  have hout0 : line0 ∉ (s.heap.live.erase line0).erase tbl.addr := fun hm =>
    (List.Nodup.mem_erase_iff hnd).mp (List.mem_of_mem_erase hm) |>.1 rfl
  have hout1 : tbl.addr ∉ (s.heap.live.erase line0).erase tbl.addr := fun hm =>
    (List.Nodup.mem_erase_iff hnd1).mp hm |>.1 rfl
  cases hd : s.s_DMALines with
  | none =>
    have hres : freeViewPort f s = some { s with
        base := f s.base
        m_lines := none
        heap := { s.heap with live := (s.heap.live.erase line0).erase tbl.addr } } := by
      unfold freeViewPort
      simp only [htbl, hidx, hf0, hf1, hd]
    exact ⟨_, hres, rfl, hout0, hout1, rfl⟩
  | some dma =>
    obtain ⟨hdl, hdn0, hdn1⟩ := hdma dma hd
    have hdl' : dma.addr ∈ (s.heap.live.erase line0).erase tbl.addr :=
      (List.mem_erase_of_ne hdn1).mpr ((List.mem_erase_of_ne hdn0).mpr hdl)
    by_cases hdz : dma.addr = 0
    · have hf2 : heap_caps_free dma.addr
          { s.heap with live := (s.heap.live.erase line0).erase tbl.addr } =
          some { s.heap with live := (s.heap.live.erase line0).erase tbl.addr } := by
        unfold heap_caps_free
        rw [if_pos hdz]
      have hres : freeViewPort f s = some { s with
          base := f s.base
          m_lines := none
          heap := { s.heap with live := (s.heap.live.erase line0).erase tbl.addr } } := by
        unfold freeViewPort
        simp only [htbl, hidx, hf0, hf1, hd, hf2]
      exact ⟨_, hres, rfl, hout0, hout1, rfl⟩
    · have hf2 := heap_caps_free_live dma.addr
        { s.heap with live := (s.heap.live.erase line0).erase tbl.addr } hdz hdl'
      have hres : freeViewPort f s = some { s with
          base := f s.base
          m_lines := none
          heap := { s.heap with
            live := ((s.heap.live.erase line0).erase tbl.addr).erase dma.addr } } := by
        unfold freeViewPort
        simp only [htbl, hidx, hf0, hf1, hd, hf2]
      exact ⟨_, hres, rfl, fun hm => hout0 (List.mem_of_mem_erase hm),
        fun hm => hout1 (List.mem_of_mem_erase hm), rfl⟩

/-- C9 (as stated) fails: on the constructed controller, whose table was never allocated,
`freeViewPort` faults (it reads `m_lines[0]` through the null `m_lines`); and on a
controller whose pool is allocated a first call returns with the table null and a second
call faults in the same way, so freeing is not idempotent. -/
theorem C9_counterexample :
    (VGADirectController true VGABaseController.initial).m_lines = none ∧
      freeViewPort id (VGADirectController true VGABaseController.initial) = none ∧
      (∃ s1, freeViewPort id exampleArmed = some s1 ∧ s1.m_lines = none ∧
        freeViewPort id s1 = none) := by
  refine ⟨rfl, rfl, ?_⟩
  obtain ⟨s1, h1, hn, _⟩ := freeViewPort_allocated id exampleArmed
    { addr := 16, entries := [25, 29] } 25 [29] rfl rfl (by decide) (by decide) (by decide)
    (by decide) (by decide) (by decide) (by
      intro dma hd
      have hd' : dma = { addr := 34, entries := [100, 101, 102, 103, 104, 105] } :=
        (Option.some.inj hd).symm
      subst hd'
      decide)
  exact ⟨s1, h1, hn, freeViewPort_null id s1 hn⟩

/-- C9 (amended). For every controller state whose pool is allocated (the table pointer
is non-null, the table has a first entry, and the pixel region, the pointer table and the
DMA-line table are distinct live blocks, as `allocateViewPort` leaves them),
`freeViewPort` returns, releases the pixel region and the pointer table and leaves the
table pointer null.  It is not safe on a null table: in every state whose table pointer
is null, in particular the state it has just produced, it faults. -/
theorem C9_freeViewPort (f : VGABaseController → VGABaseController) (s : State)
    (tbl : LineTable) (line0 : Nat) (rest : List Nat)
    (htbl : s.m_lines = some tbl) (hent : tbl.entries = line0 :: rest)
    (hnd : s.heap.live.Nodup) (h0 : line0 ∈ s.heap.live) (h1 : tbl.addr ∈ s.heap.live)
    (hne : line0 ≠ tbl.addr) (hz0 : line0 ≠ 0) (hz1 : tbl.addr ≠ 0)
    (hdma : ∀ dma, s.s_DMALines = some dma →
      dma.addr ∈ s.heap.live ∧ dma.addr ≠ line0 ∧ dma.addr ≠ tbl.addr) :
    (∃ s1, freeViewPort f s = some s1 ∧ s1.m_lines = none ∧
      line0 ∉ s1.heap.live ∧ tbl.addr ∉ s1.heap.live ∧
      ∀ g : VGABaseController → VGABaseController, freeViewPort g s1 = none) ∧
    (∀ (g : VGABaseController → VGABaseController) (s0 : State),
      s0.m_lines = none → freeViewPort g s0 = none) := by
  obtain ⟨s1, hs1, hn, ho0, ho1, _⟩ :=
    freeViewPort_allocated f s tbl line0 rest htbl hent hnd h0 h1 hne hz0 hz1 hdma
  exact ⟨⟨s1, hs1, hn, ho0, ho1, fun g => freeViewPort_null g s1 hn⟩,
    fun g s0 h => freeViewPort_null g s0 h⟩

/-- C9 (amended) evaluated on the example controller. -/
theorem C9_freeViewPort_witness :
    (∃ s1, freeViewPort id exampleArmed = some s1 ∧ s1.m_lines = none ∧
      25 ∉ s1.heap.live ∧ 16 ∉ s1.heap.live ∧
      ∀ g : VGABaseController → VGABaseController, freeViewPort g s1 = none) ∧
    (∀ (g : VGABaseController → VGABaseController) (s0 : State),
      s0.m_lines = none → freeViewPort g s0 = none) :=
  C9_freeViewPort id exampleArmed { addr := 16, entries := [25, 29] } 25 [29] rfl rfl
    (by decide) (by decide) (by decide) (by decide) (by decide) (by decide) (by
      intro dma hd
      have hd' : dma = { addr := 34, entries := [100, 101, 102, 103, 104, 105] } :=
        (Option.some.inj hd).symm
      subst hd'
      decide)

/-! ## C10: binding the DMA chain -/

@[simp] theorem setDescBuf_buf (buffer p : Nat) (s : State) :
    ((setDescBuf buffer p s).descs buffer).buf = p := by
  simp [setDescBuf]

@[simp] theorem setDescBuf_eof (buffer p : Nat) (s : State) :
    ((setDescBuf buffer p s).descs buffer).eof = (s.descs buffer).eof := by
  simp [setDescBuf]

@[simp] theorem setDescBuf_other (buffer p b : Nat) (s : State) (h : b ≠ buffer) :
    (setDescBuf buffer p s).descs b = s.descs b := by
  simp [setDescBuf, Function.update_noteq h]

@[simp] theorem setDescEof_buf (buffer : Nat) (s : State) :
    ((setDescEof buffer s).descs buffer).buf = (s.descs buffer).buf := by
  simp [setDescEof]

@[simp] theorem setDescEof_eof (buffer : Nat) (s : State) :
    ((setDescEof buffer s).descs buffer).eof = 1 := by
  simp [setDescEof]

@[simp] theorem setDescEof_other (buffer b : Nat) (s : State) (h : b ≠ buffer) :
    (setDescEof buffer s).descs b = s.descs b := by
  simp [setDescEof, Function.update_noteq h]

@[simp] theorem setDescBuf_linesCount (buffer p : Nat) (s : State) :
    (setDescBuf buffer p s).m_linesCount = s.m_linesCount := rfl

/-- The hook on a descriptor of the visible area, with the tables in place: the state it
returns, by cases on the interrupt and frame-reset conditions of line 171-173. -/
theorem onSetupDMABuffer_visible (s : State) (tbl : LineTable) (dma : DMATable) (P : Int)
    (buffer : Nat) (fp : Bool) (scan row : Int) (hP : 2 ≤ P) (hrow : 0 ≤ row)
    (hl : s.m_linesCount = P) (htbl : s.m_lines = some tbl)
    (hlen : (tbl.entries.length : Int) = P) (hdma : s.s_DMALines = some dma)
    (hrl : row.toNat < dma.entries.length) :
    ∃ p, tableAt tbl.entries (row % P) = some p ∧
      onSetupDMABuffer buffer fp scan true row s =
        some (
          let s1 : State := { s with
            s_DMALines := some { dma with entries := dma.entries.set row.toNat buffer } }
          let s2 := setDescBuf buffer p s1
          if scan = 0 ∧ row % (P / 2) = 0 then
            setDescEof buffer
              (if row = 0 then { s2 with s_frameResetDesc := buffer } else s2)
          else s2) := by
  have hslot : dmaSlot row P = row % P := dmaSlot_eq row P hrow (by omega)
  have hm0 : 0 ≤ row % P := Int.emod_nonneg _ (by omega)
  have hm1 : row % P < P := Int.emod_lt_of_pos _ (by omega)
  obtain ⟨p, hp⟩ := tableAt_isSome tbl.entries (row % P) hm0 (by omega)
  have ht : P.tdiv 2 = P / 2 := tdiv_two_eq P (by omega)
  have hh : 0 < P / 2 := by omega
  have hmod : row.tmod (P / 2) = row % (P / 2) := Int.tmod_eq_emod hrow (by omega)
  refine ⟨p, hp, ?_⟩
  have hP0 : P ≠ 0 := by omega
  have hh0 : P / 2 ≠ 0 := by omega
  unfold onSetupDMABuffer
  simp only [if_true, hdma, hrow, hrl, true_and, and_self, hl, htbl, hslot, hp,
    dmaInterruptRow, setDescBuf_linesCount, ht, hmod, hP0, hh0, if_false]
  by_cases hs : scan = 0
  · by_cases hm : row % (P / 2) = 0
    · simp [hs, hm]
    · simp [hs, hm]
  · simp [hs]

/-- C10. DMA chain binding, for every pool size `P ≥ 2` and every `visibleRow ≥ 0` inside
the table of DMA lines, with the pool allocated: when `isVisible` is false nothing is
changed; when it is true the hook returns, the descriptor's buffer pointer becomes
`pool[visibleRow mod P]`, the descriptor is recorded as the DMA line of `visibleRow`, its
`eof` mark is set exactly when `scan = 0` and `visibleRow mod (P/2) = 0` (and is left as it
was otherwise), it becomes the frame-reset marker exactly when `scan = 0` and
`visibleRow = 0` (the marker is left as it was otherwise), and no other descriptor and no
pool entry is touched. -/
theorem C10_onSetupDMABuffer (s : State) (tbl : LineTable) (dma : DMATable) (P : Int)
    (buffer : Nat) (fp : Bool) (scan row : Int) (hP : 2 ≤ P) (hrow : 0 ≤ row)
    (hl : s.m_linesCount = P) (htbl : s.m_lines = some tbl)
    (hlen : (tbl.entries.length : Int) = P) (hdma : s.s_DMALines = some dma)
    (hrl : row.toNat < dma.entries.length) :
    onSetupDMABuffer buffer fp scan false row s = some s ∧
    ∃ s1 p dma1, onSetupDMABuffer buffer fp scan true row s = some s1 ∧
      tableAt tbl.entries (row % P) = some p ∧
      (s1.descs buffer).buf = p ∧
      s1.s_DMALines = some dma1 ∧ tableAt dma1.entries row = some buffer ∧
      (∀ i : Nat, i ≠ row.toNat → dma1.entries[i]? = dma.entries[i]?) ∧
      (s1.descs buffer).eof =
        (if scan = 0 ∧ row % (P / 2) = 0 then 1 else (s.descs buffer).eof) ∧
      s1.s_frameResetDesc =
        (if scan = 0 ∧ row = 0 then buffer else s.s_frameResetDesc) ∧
      (∀ b, b ≠ buffer → s1.descs b = s.descs b) ∧
      s1.m_lines = s.m_lines := by
  refine ⟨rfl, ?_⟩
  obtain ⟨p, hp, hres⟩ :=
    onSetupDMABuffer_visible s tbl dma P buffer fp scan row hP hrow hl htbl hlen hdma hrl
  have hh : 0 < P / 2 := by omega
  refine ⟨_, p, { dma with entries := dma.entries.set row.toNat buffer }, hres, hp,
    ?_, ?_, ?_, ?_, ?_, ?_, ?_, ?_⟩
  · dsimp only
    split
    · split <;> simp [setDescEof, setDescBuf]
    · simp
  · dsimp only
    split
    · split <;> rfl
    · rfl
  · simp [tableAt, hrow, hrl]
  · intro i hi
    simp [List.getElem?_set, Ne.symm hi]
  · dsimp only
    split
    · split <;> simp
    · simp
  · dsimp only
    by_cases hs : scan = 0
    · by_cases hr0 : row = 0
      · simp [hs, hr0, setDescEof]
      · by_cases hm : row % (P / 2) = 0
        · simp [hs, hr0, hm, setDescEof, setDescBuf]
        · simp [hs, hr0, hm, setDescBuf]
    · simp [hs, setDescBuf]
  · intro b hb
    dsimp only
    split
    · split <;> simp [setDescEof, setDescBuf, Function.update_noteq hb]
    · simp [hb]
  · dsimp only
    split
    · split <;> rfl
    · rfl

/-- C10 evaluated on the example controller: descriptor `102` for visible row `2`, first
scan. -/
theorem C10_onSetupDMABuffer_witness :
    onSetupDMABuffer 102 false 0 false 2 exampleArmed = some exampleArmed ∧
    ∃ s1 p dma1, onSetupDMABuffer 102 false 0 true 2 exampleArmed = some s1 ∧
      tableAt [25, 29] (2 % 2) = some p ∧
      (s1.descs 102).buf = p ∧
      s1.s_DMALines = some dma1 ∧ tableAt dma1.entries 2 = some 102 ∧
      (∀ i : Nat, i ≠ (2 : Int).toNat →
        dma1.entries[i]? = [100, 101, 102, 103, 104, 105][i]?) ∧
      (s1.descs 102).eof =
        (if (0 : Int) = 0 ∧ (2 : Int) % (2 / 2) = 0 then 1 else (exampleArmed.descs 102).eof) ∧
      s1.s_frameResetDesc =
        (if (0 : Int) = 0 ∧ (2 : Int) = 0 then 102 else exampleArmed.s_frameResetDesc) ∧
      (∀ b, b ≠ 102 → s1.descs b = exampleArmed.descs b) ∧
      s1.m_lines = exampleArmed.m_lines :=
  C10_onSetupDMABuffer exampleArmed { addr := 16, entries := [25, 29] }
    { addr := 34, entries := [100, 101, 102, 103, 104, 105] } 2 102 false 0 2
    (by decide) (by decide) rfl rfl rfl rfl (by decide)

/-! ## C7: every callback invocation is in range -/

theorem and_three (x : Nat) : x &&& 3 = x % 4 :=
  Nat.and_pow_two_sub_one_eq_mod x 2

theorem shiftRight_two (x : Nat) : x >>> 2 = x / 4 :=
  Nat.shiftRight_eq_div_pow x 2

theorem shiftRight_four (x : Nat) : x >>> 4 = x / 16 :=
  Nat.shiftRight_eq_div_pow x 4

/-- The decoded colour in closed form: the conversions to `uint8_t` lose nothing. -/
theorem decodePixel_eq (v : Nat) :
    decodePixel v = ⟨(v &&& 3) * 85, ((v >>> 2) &&& 3) * 85, ((v >>> 4) &&& 3) * 85⟩ := by
  unfold decodePixel
  simp only [and_three, shiftRight_two, shiftRight_four]
  congr 1 <;> omega

theorem low_bits64 (v : Nat) :
    v % 64 % 4 = v % 4 ∧ v % 64 / 4 % 4 = v / 4 % 4 ∧ v % 64 / 16 % 4 = v / 16 % 4 := by
  refine ⟨?_, ?_, ?_⟩ <;> omega

theorem low_bits256 (v : Nat) :
    v % 256 % 4 = v % 4 ∧ v % 256 / 4 % 4 = v / 4 % 4 ∧ v % 256 / 16 % 4 = v / 16 % 4 := by
  refine ⟨?_, ?_, ?_⟩ <;> omega

/-- Only the low six bits of the raw byte reach the decoded colour. -/
theorem decodePixel_mod64 (v : Nat) : decodePixel (v % 64) = decodePixel v := by
  unfold decodePixel
  simp only [and_three, shiftRight_two, shiftRight_four]
  rw [(low_bits64 v).1, (low_bits64 v).2.1, (low_bits64 v).2.2]

/-- Reading the raw pixel as a `uint8_t` does not change the decoded colour. -/
theorem decodePixel_mod256 (v : Nat) : decodePixel (v % 256) = decodePixel v := by
  unfold decodePixel
  simp only [and_three, shiftRight_two, shiftRight_four]
  rw [(low_bits256 v).1, (low_bits256 v).2.1, (low_bits256 v).2.2]

theorem level_of_two_bits (x : Nat) (h : x < 4) :
    x * 85 % 256 = 0 ∨ x * 85 % 256 = 85 ∨ x * 85 % 256 = 170 ∨ x * 85 % 256 = 255 := by
  interval_cases x <;> simp

theorem decodePixel_levels (v : Nat) :
    ((decodePixel v).R = 0 ∨ (decodePixel v).R = 85 ∨ (decodePixel v).R = 170 ∨
        (decodePixel v).R = 255) ∧
      ((decodePixel v).G = 0 ∨ (decodePixel v).G = 85 ∨ (decodePixel v).G = 170 ∨
        (decodePixel v).G = 255) ∧
      ((decodePixel v).B = 0 ∨ (decodePixel v).B = 85 ∨ (decodePixel v).B = 170 ∨
        (decodePixel v).B = 255) := by
  unfold decodePixel
  simp only [and_three, shiftRight_two, shiftRight_four]
  exact ⟨level_of_two_bits _ (Nat.mod_lt _ (by decide)),
    level_of_two_bits _ (Nat.mod_lt _ (by decide)),
    level_of_two_bits _ (Nat.mod_lt _ (by decide))⟩

theorem mem_forRange (lo hi x : Int) (h : x ∈ forRange lo hi) : lo ≤ x ∧ x ≤ hi := by
  unfold forRange at h
  obtain ⟨k, hk, rfl⟩ := List.mem_map.mp h
  have := List.mem_range.mp hk
  omega

theorem length_forRange (lo hi : Int) : (forRange lo hi).length = (hi + 1 - lo).toNat := by
  unfold forRange
  simp

theorem length_flatMap_const {α β : Type} (l : List α) (f : α → List β) (k : Nat)
    (h : ∀ a, (f a).length = k) : (l.flatMap f).length = l.length * k := by
  induction l with
  | nil => simp
  | cons a l ih =>
    rw [List.flatMap_cons, List.length_append, ih, h a, List.length_cons]
    ring

/-- One row of `readScreen` with a callback that fills the line with the byte `c y`. -/
theorem readScreenRow_fill (pixelIndex : Int → Int) (c : Int → Nat) (cb : DrawScanlineCallback)
    (tbl : LineTable) (line0 : Nat) (W X1 X2 : Int)
    (hfill : ∀ (arg dest : Nat) (y : Int) (mem : Memory) (i : Nat),
      (i : Int) < W → cb arg dest y mem (dest + i) = c y)
    (hidx : ∀ x, X1 ≤ x → x ≤ X2 → 0 ≤ pixelIndex x ∧ pixelIndex x < W)
    (s : State) (out : List RGB888) (y : Int)
    (hcb : s.m_drawScanlineCallback = some cb) (htbl : s.m_lines = some tbl)
    (hline : tableAt tbl.entries 0 = some line0) :
    ∃ s1, readScreenRow pixelIndex X1 X2 (s, out) y =
        some (s1, out ++ (forRange X1 X2).map (fun _ => decodePixel (c y))) ∧
      s1.m_drawScanlineCallback = some cb ∧ s1.m_lines = some tbl := by
  refine ⟨{ s with
      mem := cb s.m_drawScanlineArg line0 y s.mem
      calls := s.calls ++ [⟨s.m_drawScanlineArg, line0, y⟩] }, ?_, hcb, htbl⟩
  unfold readScreenRow
  simp only [hcb, htbl, hline]
  congr 3
  apply List.map_congr_left
  intro x hx
  obtain ⟨hx1, hx2⟩ := mem_forRange X1 X2 x hx
  obtain ⟨hi0, hi1⟩ := hidx x hx1 hx2
  have haddr : ((line0 : Int) + pixelIndex x).toNat = line0 + (pixelIndex x).toNat := by
    omega
  rw [haddr, hfill _ _ _ _ _ (by omega)]
  exact decodePixel_mod256 (c y)

/-- The rows of `readScreen`, folded. -/
theorem readScreen_rows (pixelIndex : Int → Int) (c : Int → Nat) (cb : DrawScanlineCallback)
    (tbl : LineTable) (line0 : Nat) (W X1 X2 : Int)
    (hfill : ∀ (arg dest : Nat) (y : Int) (mem : Memory) (i : Nat),
      (i : Int) < W → cb arg dest y mem (dest + i) = c y)
    (hidx : ∀ x, X1 ≤ x → x ≤ X2 → 0 ≤ pixelIndex x ∧ pixelIndex x < W)
    (hline : tableAt tbl.entries 0 = some line0) (rows : List Int) :
    ∀ (s : State) (out : List RGB888), s.m_drawScanlineCallback = some cb →
      s.m_lines = some tbl →
      ∃ s1, rows.foldlM (readScreenRow pixelIndex X1 X2) (s, out) =
        some (s1, out ++ rows.flatMap
          (fun y => (forRange X1 X2).map (fun _ => decodePixel (c y)))) := by
  induction rows with
  | nil =>
    intro s out _ _
    exact ⟨s, by simp⟩
  | cons y rows ih =>
    intro s out hcb htbl
    obtain ⟨s1, h1, hcb1, htbl1⟩ := readScreenRow_fill pixelIndex c cb tbl line0 W X1 X2
      hfill hidx s out y hcb htbl hline
    obtain ⟨s2, h2⟩ := ih s1 _ hcb1 htbl1
    refine ⟨s2, ?_⟩
    rw [List.foldlM_cons, h1]
    simp only [Option.bind_eq_bind, Option.some_bind]
    rw [h2, List.flatMap_cons, List.append_assoc]

/-- C6. For every rectangle `(X1,Y1)-(X2,Y2)` inside the viewport and every registered
callback that fills the `W` bytes of scanline `y` with one raw byte `c y`, `readScreen`
returns and stores exactly `(X2-X1+1)*(Y2-Y1+1)` colours, in row-major order (rows
`Y1..Y2` ascending, columns `X1..X2` ascending), and every colour stored for row `y` is
`RGB888((c y & 3)*85, ((c y >> 2) & 3)*85, ((c y >> 4) & 3)*85)`: each channel is one of
`0, 85, 170, 255` and depends on the low six bits of `c y` alone.  The macro
`VGA_PIXELINROW` is taken to read a byte of the line inside the viewport width. -/
theorem C6_readScreen (pixelIndex : Int → Int) (c : Int → Nat) (cb : DrawScanlineCallback)
    (tbl : LineTable) (line0 : Nat) (W H X1 Y1 X2 Y2 : Int) (s : State)
    (_hW : s.base.m_viewPortWidth = W) (_hH : s.base.m_viewPortHeight = H)
    (hX : 0 ≤ X1 ∧ X1 ≤ X2 ∧ X2 < W) (hY : 0 ≤ Y1 ∧ Y1 ≤ Y2 ∧ Y2 < H)
    (hcb : s.m_drawScanlineCallback = some cb) (htbl : s.m_lines = some tbl)
    (hline : tableAt tbl.entries 0 = some line0)
    (hfill : ∀ (arg dest : Nat) (y : Int) (mem : Memory) (i : Nat),
      (i : Int) < W → cb arg dest y mem (dest + i) = c y)
    (hidx : ∀ x, X1 ≤ x → x ≤ X2 → 0 ≤ pixelIndex x ∧ pixelIndex x < W) :
    ∃ s1 out, readScreen pixelIndex X1 Y1 X2 Y2 s = some (s1, out) ∧
      out = (forRange Y1 Y2).flatMap
        (fun y => (forRange X1 X2).map (fun _ => decodePixel (c y))) ∧
      out.length = ((X2 - X1 + 1) * (Y2 - Y1 + 1)).toNat ∧
      ∀ y, decodePixel (c y) =
          ⟨(c y &&& 3) * 85, ((c y >>> 2) &&& 3) * 85, ((c y >>> 4) &&& 3) * 85⟩ ∧
        decodePixel (c y) = decodePixel (c y % 64) ∧
        ((decodePixel (c y)).R = 0 ∨ (decodePixel (c y)).R = 85 ∨
          (decodePixel (c y)).R = 170 ∨ (decodePixel (c y)).R = 255) ∧
        ((decodePixel (c y)).G = 0 ∨ (decodePixel (c y)).G = 85 ∨
          (decodePixel (c y)).G = 170 ∨ (decodePixel (c y)).G = 255) ∧
        ((decodePixel (c y)).B = 0 ∨ (decodePixel (c y)).B = 85 ∨
          (decodePixel (c y)).B = 170 ∨ (decodePixel (c y)).B = 255) := by
  obtain ⟨s1, h1⟩ := readScreen_rows pixelIndex c cb tbl line0 W X1 X2 hfill hidx hline
    (forRange Y1 Y2) s [] hcb htbl
  rw [List.nil_append] at h1
  refine ⟨s1, _, h1, rfl, ?_, ?_⟩
  · rw [length_flatMap_const _ _ (X2 + 1 - X1).toNat
      (fun y => by rw [List.length_map, length_forRange]), length_forRange]
    have ha : X2 - X1 + 1 = (((X2 + 1 - X1).toNat : Nat) : Int) := by omega
    have hb : Y2 - Y1 + 1 = (((Y2 + 1 - Y1).toNat : Nat) : Int) := by omega
    rw [ha, hb, ← Nat.cast_mul, Int.toNat_ofNat, Nat.mul_comm]
  · intro y
    exact ⟨decodePixel_eq (c y), (decodePixel_mod64 (c y)).symm,
      decodePixel_levels (c y)⟩

/-- C6 evaluated on the example controller: the whole viewport `(0,0)-(3,5)`, the callback
that fills row `y` with the byte `y`, and the column-to-byte map `x ^ 2`. -/
theorem C6_readScreen_witness :
    ∃ s1 out, readScreen examplePixelIndex 0 0 3 5 exampleArmed = some (s1, out) ∧
      out = (forRange 0 5).flatMap
        (fun y => (forRange 0 3).map (fun _ => decodePixel (y.toNat % 256))) ∧
      out.length = (((3 : Int) - 0 + 1) * (5 - 0 + 1)).toNat ∧
      ∀ y : Int, decodePixel (y.toNat % 256) =
          ⟨(y.toNat % 256 &&& 3) * 85, (((y.toNat % 256) >>> 2) &&& 3) * 85,
            (((y.toNat % 256) >>> 4) &&& 3) * 85⟩ ∧
        decodePixel (y.toNat % 256) = decodePixel (y.toNat % 256 % 64) ∧
        ((decodePixel (y.toNat % 256)).R = 0 ∨ (decodePixel (y.toNat % 256)).R = 85 ∨
          (decodePixel (y.toNat % 256)).R = 170 ∨ (decodePixel (y.toNat % 256)).R = 255) ∧
        ((decodePixel (y.toNat % 256)).G = 0 ∨ (decodePixel (y.toNat % 256)).G = 85 ∨
          (decodePixel (y.toNat % 256)).G = 170 ∨ (decodePixel (y.toNat % 256)).G = 255) ∧
        ((decodePixel (y.toNat % 256)).B = 0 ∨ (decodePixel (y.toNat % 256)).B = 85 ∨
          (decodePixel (y.toNat % 256)).B = 170 ∨ (decodePixel (y.toNat % 256)).B = 255) :=
  C6_readScreen examplePixelIndex (fun y => y.toNat % 256) exampleCallback
    { addr := 16, entries := [25, 29] } 25 4 6 0 0 3 5 exampleArmed rfl rfl
    (by decide) (by decide) rfl rfl rfl
    (by
      intro arg dest y mem i hi
      have h : dest ≤ dest + i ∧ dest + i < dest + 4 := by omega
      simp [exampleCallback, h])
    (by
      intro x h0 h3
      interval_cases x <;> decide)

/-! ## C11: two interrupt rows per pool cycle -/

/-- On a first scan, for a non-negative row and a pool of `P = 2n` lines, the interrupt
condition of line 171 is divisibility of the row by `n`. -/
theorem dmaInterruptRow_iff (n P r : Int) (hn : 1 ≤ n) (hP : P = 2 * n) (hr : 0 ≤ r) :
    dmaInterruptRow 0 r P = true ↔ r % n = 0 := by
  have hhalf : P.tdiv 2 = n := by
    rw [tdiv_two_eq P (by omega), hP]; omega
  unfold dmaInterruptRow
  rw [hhalf, Int.tmod_eq_emod hr (by omega)]
  simp

/-- In one pool cycle the rows divisible by `n` are the first one and the one `n` rows
later. -/
theorem cycle_row_divisible (n k j : Int) (hj0 : 0 ≤ j) (hj1 : j < 2 * n) :
    (k * (2 * n) + j) % n = 0 ↔ j = 0 ∨ j = n := by
  have e : k * (2 * n) + j = j + n * (k * 2) := by ring
  rw [e, Int.add_mul_emod_self_left]
  by_cases hlt : j < n
  · rw [Int.emod_eq_of_lt hj0 hlt]
    constructor
    · intro h; exact Or.inl h
    · intro h
      rcases h with h | h
      · exact h
      · omega
  · have e2 : j = (j - n) + n * 1 := by ring
    rw [e2, Int.add_mul_emod_self_left, Int.emod_eq_of_lt (by omega) (by omega)]
    constructor
    · intro h; exact Or.inr (by omega)
    · intro h
      rcases h with h | h
      · omega
      · omega

/-- A filter that keeps the first element of an enumerated list and nothing else. -/
theorem filter_enumerated_first (p : Int → Bool) (f : Nat → Int) (N : Nat)
    (h0 : p (f 0) = true) (hrest : ∀ i, 0 < i → i < N + 1 → p (f i) = false) :
    ((List.range (N + 1)).map f).filter p = [f 0] := by
  rw [List.range_succ_eq_map, List.map_cons, List.filter_cons_of_pos h0]
  congr 1
  rw [List.filter_eq_nil_iff]
  intro a ha
  obtain ⟨i, hi, rfl⟩ := List.mem_map.mp ha
  obtain ⟨j, hj, rfl⟩ := List.mem_map.mp hi
  have hjN := List.mem_range.mp hj
  rw [hrest (j + 1) (by omega) (by omega)]
  simp

/-- C11. The producer runs exactly twice per pool cycle: for every `n ≥ 1` with pool size
`P = 2n` (the pool size `setScanlinesPerCallBack(n)` sets) and every `k ≥ 0`, among the `P` consecutive visible rows `kP, ..., kP+P-1` the
rows that satisfy the interrupt-marking condition of `onSetupDMABuffer` on their first
scan are exactly the two rows `kP` and `kP + P/2`: a row of the cycle satisfies it if and
only if it is one of the two, and filtering the cycle by the condition leaves the list
`[kP, kP + P/2]` of two distinct rows. -/
theorem C11_two_interrupt_rows (n k P : Int) (hn : 1 ≤ n) (hP : P = 2 * n) (hk : 0 ≤ k) :
    (∀ s : State, (setScanlinesPerCallBack n s).m_linesCount = P) ∧
    (∀ r, k * P ≤ r → r ≤ k * P + P - 1 →
      (dmaInterruptRow 0 r P = true ↔ r = k * P ∨ r = k * P + P / 2)) ∧
    (forRange (k * P) (k * P + P - 1)).filter (fun r => dmaInterruptRow 0 r P)
      = [k * P, k * P + P / 2] ∧
    k * P ≠ k * P + P / 2 := by
  have hkP : 0 ≤ k * P := Int.mul_nonneg hk (by omega)
  have hhalf : P / 2 = n := by rw [hP]; omega
  have hchar : ∀ r, k * P ≤ r → r ≤ k * P + P - 1 →
      (dmaInterruptRow 0 r P = true ↔ r = k * P ∨ r = k * P + P / 2) := by
    intro r h0 h1
    rw [dmaInterruptRow_iff n P r hn hP (by omega), hhalf]
    have e : r = k * (2 * n) + (r - k * P) := by rw [hP]; ring
    rw [e, cycle_row_divisible n k (r - k * P) (by omega) (by omega)]
    constructor
    · intro h
      rcases h with h | h
      · left; rw [hP] at h ⊢; omega
      · right; rw [hP] at h ⊢; omega
    · intro h
      rcases h with h | h
      · left; rw [hP] at h ⊢; omega
      · right; rw [hP] at h ⊢; omega
  refine ⟨fun s => by rw [hP]; show n * 2 = 2 * n; ring, hchar, ?_, by omega⟩
  obtain ⟨N, hN⟩ : ∃ N : Nat, n = ((N + 1 : Nat) : Int) :=
    ⟨(n - 1).toNat, by omega⟩
  have hlen : (k * P + P - 1 + 1 - k * P).toNat = (N + 1) + (N + 1) := by
    rw [hP, hN]; push_cast; omega
  unfold forRange
  rw [hlen, List.range_add, List.map_append, List.filter_append, List.map_map]
  have hfirst := filter_enumerated_first (fun r => dmaInterruptRow 0 r P)
    (fun (i : Nat) => k * P + (i : Int)) N
    (by
      show dmaInterruptRow 0 (k * P + ((0 : Nat) : Int)) P = true
      rw [hchar _ (by omega) (by rw [hP, hN]; push_cast; omega)]
      left; simp)
    (by
      intro i hi0 hiN
      show dmaInterruptRow 0 (k * P + (i : Int)) P = false
      rw [Bool.eq_false_iff, Ne, hchar _ (by omega) (by rw [hP, hN]; push_cast; omega),
        hhalf, hN]
      push_cast
      omega)
  have hsecond := filter_enumerated_first (fun r => dmaInterruptRow 0 r P)
    ((fun (i : Nat) => k * P + (i : Int)) ∘ (fun (i : Nat) => N + 1 + i)) N
    (by
      show dmaInterruptRow 0 (k * P + ((N + 1 + 0 : Nat) : Int)) P = true
      rw [hchar _ (by omega) (by rw [hP, hN]; push_cast; omega), hhalf, hN]
      right; simp)
    (by
      intro i hi0 hiN
      show dmaInterruptRow 0 (k * P + ((N + 1 + i : Nat) : Int)) P = false
      rw [Bool.eq_false_iff, Ne, hchar _ (by omega) (by rw [hP, hN]; push_cast; omega),
        hhalf, hN]
      push_cast
      omega)
  rw [hfirst, hsecond, hhalf, hN]
  simp

/-- C11 evaluated for `setScanlinesPerCallBack(4)` (`P = 8`) and the cycle `k = 3`: of the
rows `24..31` the rows `24` and `28` raise an interrupt. -/
theorem C11_two_interrupt_rows_witness :
    (∀ s : State, (setScanlinesPerCallBack 4 s).m_linesCount = 8) ∧
    (∀ r : Int, 3 * 8 ≤ r → r ≤ 3 * 8 + 8 - 1 →
      (dmaInterruptRow 0 r 8 = true ↔ r = 3 * 8 ∨ r = 3 * 8 + 8 / 2)) ∧
    (forRange (3 * 8) (3 * 8 + 8 - 1)).filter (fun r => dmaInterruptRow 0 r 8)
      = [3 * 8, 3 * 8 + 8 / 2] ∧
    (3 : Int) * 8 ≠ 3 * 8 + 8 / 2 :=
  C11_two_interrupt_rows 4 3 8 (by decide) (by decide) (by decide)

/-! ## C12: the three slot computations -/

theorem tableAt_map_range (f : Nat → Nat) (N : Nat) (i : Int) (h0 : 0 ≤ i)
    (h1 : i.toNat < N) : tableAt ((List.range N).map f) i = some (f i.toNat) := by
  unfold tableAt
  rw [if_pos h0]
  simp [List.getElem?_map, List.getElem?_range h1]

/-- The pool `allocateViewPort` builds: entry `i` is `m_lines[0] + i * m_viewPortWidth`. -/
theorem allocateViewPort_lines (s0 s : State) (h : allocateViewPort s0 = some s) :
    0 < s0.m_linesCount ∧ s.m_linesCount = s0.m_linesCount ∧
      ∃ addr pix : Nat, s.m_lines = some
        { addr := addr
          entries := (List.range s0.m_linesCount.toNat).map
            (fun (i : Nat) => ((pix : Int) + (i : Int) * s0.base.m_viewPortWidth).toNat) } := by
  unfold allocateViewPort heap_caps_malloc at h
  by_cases hle : s0.m_linesCount ≤ 0
  · simp only [hle, if_true] at h
    exact absurd h (by simp)
  · simp only [hle, if_false] at h
    have hs := (Option.some.inj h).symm
    subst hs
    exact ⟨by omega, rfl, _, _, rfl⟩

/-- For a power-of-two pool and a scanline `r ≥ 0` the mask of the handler and the
remainder of the DMA hook are the slot of the specification. -/
theorem slots_agree (k : Nat) (P r : Int) (hP : P = 2 ^ k) (hr : 0 ≤ r) :
    isrLineIndex r P = specPoolSlot r P ∧ dmaSlot r P = specPoolSlot r P := by
  have hpos : (0 : Int) < 2 ^ k := by positivity
  constructor
  · rw [hP]; exact isrLineIndex_pow2 r k hr
  · exact dmaSlot_eq r P hr (by omega)

/-- C12. The three slot computations agree on which buffer holds a scanline: for every
power-of-two pool size `P ≥ 2`, every scanline index `r ≥ 0` and every controller whose
pool of `P` entries is in place, there is one buffer `b = pool[r mod P]` such that
the handler's index `r & (P-1)` and the DMA hook's index `r % P` are both `r mod P`;
a handler invocation that renders scanline `r` hands `b` to the callback;
`onSetupDMABuffer` for visible row `r` binds the descriptor to `b`;
`getDefaultScanlineBuffer(r)` returns `b`; and when the pool is the one `allocateViewPort`
built for a non-negative viewport width, `b` is `m_lines[0] + (r mod P) * m_viewPortWidth`. -/
theorem C12_same_buffer (k : Nat) (P r : Int) (hk : 1 ≤ k) (hP : P = 2 ^ k) (hr : 0 ≤ r)
    (s : State) (tbl : LineTable) (hl : s.m_linesCount = P) (htbl : s.m_lines = some tbl)
    (hlen : (tbl.entries.length : Int) = P) :
    ∃ b, tableAt tbl.entries (specPoolSlot r P) = some b ∧
      isrLineIndex r P = specPoolSlot r P ∧ dmaSlot r P = specPoolSlot r P ∧
      tableAt tbl.entries (isrLineIndex r P) = some b ∧
      tableAt tbl.entries (dmaSlot r P) = some b ∧
      getDefaultScanlineBuffer r s = some b ∧
      (∀ cb, s.m_drawScanlineCallback = some cb → s.I2S1.int_st_out_eof = true →
        s.I2S1.out_eof_des_addr ≠ s.s_frameResetDesc → s.base.m_viewPortHeight ≠ 0 →
        isrScanLine s.s_scanLine P s.base.m_viewPortHeight = r →
        ∃ s1, ISRHandler s = some s1 ∧
          s1.calls = s.calls ++ [⟨s.m_drawScanlineArg, b, r⟩]) ∧
      (∀ (dma : DMATable) (buffer : Nat) (fp : Bool) (scan : Int),
        s.s_DMALines = some dma → r.toNat < dma.entries.length →
        ∃ s1, onSetupDMABuffer buffer fp scan true r s = some s1 ∧
          (s1.descs buffer).buf = b) ∧
      (∀ s0, allocateViewPort s0 = some s → 0 ≤ s0.base.m_viewPortWidth →
        ∃ line0, tableAt tbl.entries 0 = some line0 ∧
          (b : Int) = (line0 : Int) + (r % P) * s0.base.m_viewPortWidth) := by
  have hpow : (2 : Int) ≤ 2 ^ k := by
    obtain ⟨j, rfl⟩ : ∃ j, k = j + 1 := ⟨k - 1, by omega⟩
    have : (0 : Int) < 2 ^ j := by positivity
    rw [pow_succ]; omega
  have hP2 : 2 ≤ P := by rw [hP]; exact hpow
  obtain ⟨hisr, hdma⟩ := slots_agree k P r hP hr
  have hm0 : 0 ≤ r % P := Int.emod_nonneg _ (by omega)
  have hm1 : r % P < P := Int.emod_lt_of_pos _ (by omega)
  obtain ⟨b, hb⟩ := tableAt_isSome tbl.entries (r % P) hm0 (by omega)
  have hb1 : tableAt tbl.entries (isrLineIndex r P) = some b := by rw [hisr]; exact hb
  have hb2 : tableAt tbl.entries (dmaSlot r P) = some b := by rw [hdma]; exact hb
  refine ⟨b, hb, hisr, hdma, hb1, hb2, ?_, ?_, ?_, ?_⟩
  · unfold getDefaultScanlineBuffer
    have hP0 : P ≠ 0 := by omega
    simp only [htbl, hl, hP0, if_false]
    exact hb2
  · intro cb hcb heof hnr hH hscan
    have hstep := ISRHandler_noReset s cb tbl b hH hcb htbl heof hnr
      (by rw [hl, hscan]; exact hb1)
    rw [hl, hscan] at hstep
    exact ⟨_, hstep, by simp⟩
  · intro dma buffer fp scan hd hrl
    obtain ⟨p, hp, hres⟩ :=
      onSetupDMABuffer_visible s tbl dma P buffer fp scan r hP2 hr hl htbl hlen hd hrl
    have hpb : p = b := Option.some.inj (hp.symm.trans hb)
    subst hpb
    refine ⟨_, hres, ?_⟩
    dsimp only
    split
    · split <;> simp [setDescEof, setDescBuf]
    · simp
  · intro s0 halloc hW
    obtain ⟨hpos, hlc, addr, pix, hlines⟩ := allocateViewPort_lines s0 s halloc
    have htbl' : tbl = _ := Option.some.inj (htbl.symm.trans hlines)
    have hl0 : s0.m_linesCount = P := hlc.symm.trans hl
    have h0 := tableAt_map_range
      (fun (i : Nat) => ((pix : Int) + (i : Int) * s0.base.m_viewPortWidth).toNat)
      s0.m_linesCount.toNat 0 (le_refl 0) (by simp; omega)
    have hi := tableAt_map_range
      (fun (i : Nat) => ((pix : Int) + (i : Int) * s0.base.m_viewPortWidth).toNat)
      s0.m_linesCount.toNat (r % P) hm0 (by omega)
    rw [htbl'] at hb ⊢
    dsimp only at hb ⊢
    refine ⟨_, h0, ?_⟩
    have hbe := Option.some.inj (hb.symm.trans hi)
    rw [hbe]
    have hnn : 0 ≤ (r % P) * s0.base.m_viewPortWidth := Int.mul_nonneg hm0 hW
    have hcast : (((r % P).toNat : Nat) : Int) = r % P := Int.toNat_of_nonneg hm0
    simp only [Int.toNat_zero, Nat.cast_zero, zero_mul, add_zero, Int.toNat_ofNat, hcast]
    omega

/-- C12 evaluated for scanline `3` on the example controller (`P = 2`) with the counter
at `2` and `out_eof` pending for descriptor `103`, a state in which the handler renders
scanline `3`. -/
theorem C12_same_buffer_witness :
    ∃ b, tableAt [25, 29] (specPoolSlot 3 2) = some b ∧
      isrLineIndex 3 2 = specPoolSlot 3 2 ∧ dmaSlot 3 2 = specPoolSlot 3 2 ∧
      tableAt [25, 29] (isrLineIndex 3 2) = some b ∧
      tableAt [25, 29] (dmaSlot 3 2) = some b ∧
      getDefaultScanlineBuffer 3 (raiseOutEof 103 { exampleArmed with s_scanLine := 2 })
        = some b ∧
      (∀ cb, (raiseOutEof 103 { exampleArmed with s_scanLine := 2 }).m_drawScanlineCallback
          = some cb →
        (raiseOutEof 103 { exampleArmed with s_scanLine := 2 }).I2S1.int_st_out_eof = true →
        (raiseOutEof 103 { exampleArmed with s_scanLine := 2 }).I2S1.out_eof_des_addr ≠
          (raiseOutEof 103 { exampleArmed with s_scanLine := 2 }).s_frameResetDesc →
        (raiseOutEof 103 { exampleArmed with s_scanLine := 2 }).base.m_viewPortHeight ≠ 0 →
        isrScanLine (raiseOutEof 103 { exampleArmed with s_scanLine := 2 }).s_scanLine 2
          (raiseOutEof 103 { exampleArmed with s_scanLine := 2 }).base.m_viewPortHeight = 3 →
        ∃ s1, ISRHandler (raiseOutEof 103 { exampleArmed with s_scanLine := 2 }) = some s1 ∧
          s1.calls = (raiseOutEof 103 { exampleArmed with s_scanLine := 2 }).calls ++
            [⟨(raiseOutEof 103 { exampleArmed with s_scanLine := 2 }).m_drawScanlineArg,
              b, 3⟩]) ∧
      (∀ (dma : DMATable) (buffer : Nat) (fp : Bool) (scan : Int),
        (raiseOutEof 103 { exampleArmed with s_scanLine := 2 }).s_DMALines = some dma →
        (3 : Int).toNat < dma.entries.length →
        ∃ s1, onSetupDMABuffer buffer fp scan true 3
            (raiseOutEof 103 { exampleArmed with s_scanLine := 2 }) = some s1 ∧
          (s1.descs buffer).buf = b) ∧
      (∀ s0, allocateViewPort s0 = some (raiseOutEof 103 { exampleArmed with s_scanLine := 2 }) →
        0 ≤ s0.base.m_viewPortWidth →
        ∃ line0, tableAt [25, 29] 0 = some line0 ∧
          (b : Int) = (line0 : Int) + (3 % 2) * s0.base.m_viewPortWidth) :=
  C12_same_buffer 1 2 3 (by decide) (by decide) (by decide)
    (raiseOutEof 103 { exampleArmed with s_scanLine := 2 })
    { addr := 16, entries := [25, 29] } rfl rfl rfl

/-! ## C13: one frame of interrupts -/

/-- A slot of a scanline that is a multiple of half the pool is `0` or `P/2`. -/
theorem slot_of_half_multiple (k : Nat) (P r : Int) (hk : 1 ≤ k) (hP : P = 2 ^ k)
    (hr : 0 ≤ r) (hdiv : P / 2 ∣ r) :
    isrLineIndex r P = 0 ∨ isrLineIndex r P = P / 2 := by
  obtain ⟨j, rfl⟩ : ∃ j, k = j + 1 := ⟨k - 1, by omega⟩
  have hpos : (0 : Int) < 2 ^ j := by positivity
  have hP2 : P = 2 ^ j * 2 := by rw [hP, pow_succ]
  have hhalf : P / 2 = 2 ^ j := by rw [hP2]; omega
  rw [hP, isrLineIndex_pow2 r (j + 1) hr, ← hP, hhalf]
  rw [hhalf] at hdiv
  obtain ⟨q, rfl⟩ := hdiv
  rw [hP2, Int.mul_emod_mul_of_pos q 2 hpos]
  have h2 : q % 2 = 0 ∨ q % 2 = 1 := by omega
  rcases h2 with h | h
  · left; rw [h]; ring
  · right; rw [h]; ring

/-- One frame: the interrupt for the frame-reset descriptor followed by interrupts for
other descriptors, while the counter fits a 32-bit `int`.  The counter ends at `(n+1) * (P/2)`, the vertical-sync flag tells
whether that has reached `H`, and the scanlines rendered are `((i+1) * (P/2)) mod H`. -/
theorem interrupts_frame (P H : Int) (hP : 1 ≤ P) (hH : 0 < H) (s : State)
    (ha : Armed P H s) (ds : List Nat) (hds : ∀ d ∈ ds, d ≠ s.s_frameResetDesc)
    (hmax : ((ds.length : Int) + 1) * (P / 2) ≤ 2147483647) :
    ∃ s1, interrupts (s.s_frameResetDesc :: ds) s = some s1 ∧ Armed P H s1 ∧
      s1.s_scanLine = ((ds.length : Int) + 1) * (P / 2) ∧
      s1.s_VSync = decide (H ≤ ((ds.length : Int) + 1) * (P / 2)) ∧
      renderedScanlines s1 = renderedScanlines s ++
        (List.range (ds.length + 1)).map (fun (i : Nat) => (((i : Int) + 1) * (P / 2)) % H) := by
  have h2 : 0 ≤ P / 2 := Int.ediv_nonneg (by omega) (by decide)
  obtain ⟨s0, h0, ha0, hf0, hc0, hv0, hr0⟩ := interrupt_reset P H s hP hH ha
  obtain ⟨s1, h1, ha1, _, hc1, hv1, hr1⟩ := interrupts_noReset P H hP hH ds s0 ha0
    (by omega) (by rw [hf0]; exact hds) (by rw [hc0]; linarith)
  have hn : (0 : Int) ≤ (ds.length : Int) * (P / 2) :=
    Int.mul_nonneg (Int.ofNat_nonneg _) h2
  have hc : s1.s_scanLine = ((ds.length : Int) + 1) * (P / 2) := by
    rw [hc1, hc0]; ring
  refine ⟨s1, ?_, ha1, hc, ?_, ?_⟩
  · rw [interrupts_cons _ ds s s0 h0]; exact h1
  · rw [hv1, hv0, hc0]
    have e : P / 2 + (ds.length : Int) * (P / 2) = ((ds.length : Int) + 1) * (P / 2) := by
      ring
    rw [e]
    by_cases hz : ds.length = 0
    · simp [hz]
    · have hpos : 0 < ds.length := Nat.pos_of_ne_zero hz
      by_cases hb : H ≤ ((ds.length : Int) + 1) * (P / 2)
      · simp [hb, hpos]
      · have hb1 : ¬ H ≤ P / 2 := fun h => hb (by rw [← e]; omega)
        simp [hb, hb1]
  · rw [hr1, hr0, hc0, List.range_succ_eq_map, List.map_cons, List.map_map,
      List.append_assoc]
    congr 1
    simp only [List.singleton_append, Nat.cast_zero, zero_add, one_mul]
    congr 1
    apply List.map_congr_left
    intro i _
    simp only [renderedAfter, Function.comp, Nat.succ_eq_add_one]
    push_cast
    congr 1
    ring

/-- The scanlines of one frame when `H = (n+1) * h`: `h, 2h, ..., n*h` and then `0`. -/
theorem frame_sequence (n : Nat) (h H : Int) (hh : 0 < h) (hH : H = ((n : Int) + 1) * h) :
    (List.range (n + 1)).map (fun (i : Nat) => (((i : Int) + 1) * h) % H) =
      (List.range n).map (fun (i : Nat) => ((i : Int) + 1) * h) ++ [0] := by
  rw [List.range_succ, List.map_append]
  congr 1
  · apply List.map_congr_left
    intro i hi
    have hin := List.mem_range.mp hi
    have h0 : 0 ≤ ((i : Int) + 1) * h := Int.mul_nonneg (by omega) (by omega)
    have h1 : ((i : Int) + 1) * h < ((n : Int) + 1) * h :=
      Int.mul_lt_mul_of_pos_right (by omega) hh
    rw [hH]
    exact Int.emod_eq_of_lt h0 h1
  · simp only [List.map_cons, List.map_nil]
    rw [← hH, Int.emod_self]

/-- The scanlines of one frame are the multiples of `h` below `(n+1) * h`, each once. -/
theorem frame_sequence_perm (n : Nat) (h : Int) (hh : 0 < h) :
    List.Perm ((List.range n).map (fun (i : Nat) => ((i : Int) + 1) * h) ++ [0])
        ((List.range (n + 1)).map (fun (i : Nat) => (i : Int) * h)) ∧
      ((List.range n).map (fun (i : Nat) => ((i : Int) + 1) * h) ++ [0]).Nodup := by
  have hperm : List.Perm ((List.range n).map (fun (i : Nat) => ((i : Int) + 1) * h) ++ [0])
      ((List.range (n + 1)).map (fun (i : Nat) => (i : Int) * h)) := by
    rw [List.range_succ_eq_map, List.map_cons, List.map_map]
    have e : ((fun (i : Nat) => (i : Int) * h) ∘ Nat.succ) =
        (fun (i : Nat) => ((i : Int) + 1) * h) := by
      funext i
      simp [Function.comp]
    rw [e]
    simp
  refine ⟨hperm, hperm.nodup_iff.mpr ?_⟩
  apply List.Nodup.map _ (List.nodup_range (n + 1))
  intro a b hab
  have hab' : (a : Int) * h = (b : Int) * h := hab
  have := Int.eq_of_mul_eq_mul_right (by omega) hab'
  omega

/-- C13. Full-frame coverage: for every power-of-two pool size `P ≥ 2` and every viewport
height `H > 0` that is a multiple of `P/2`, the `H/(P/2)` consecutive interrupts of one
frame (the first for the frame-reset descriptor, the others not) all return and pass to
the callback the scanlines `P/2, P, ..., H - P/2, 0` in this order, which are the
multiples of `P/2` in `0..H-1`, each exactly once; every one is rendered into `pool[i]`
for `i = scanLine & (P-1)`, and that slot is `0` or `P/2`; `VSync()` is false after each
of the interrupts but the last and true after the last. -/
theorem C13_full_frame (k : Nat) (P H : Int) (hk : 1 ≤ k) (hP : P = 2 ^ k) (hH : 0 < H)
    (hdiv : P / 2 ∣ H) (s : State) (tbl : LineTable) (ha : Armed P H s)
    (htbl : s.m_lines = some tbl) (ds : List Nat)
    (hlen : ((ds.length : Int) + 1) = H / (P / 2))
    (hds : ∀ d ∈ ds, d ≠ s.s_frameResetDesc) :
    ∃ s1 new, interrupts (s.s_frameResetDesc :: ds) s = some s1 ∧
      s1.calls = s.calls ++ new ∧
      new.map (fun c => c.scanLine) =
        (List.range ds.length).map (fun (i : Nat) => ((i : Int) + 1) * (P / 2)) ++ [0] ∧
      List.Perm (new.map (fun c => c.scanLine))
        ((List.range (ds.length + 1)).map (fun (i : Nat) => (i : Int) * (P / 2))) ∧
      (new.map (fun c => c.scanLine)).Nodup ∧
      (∀ c ∈ new, (isrLineIndex c.scanLine P = 0 ∨ isrLineIndex c.scanLine P = P / 2) ∧
        tableAt tbl.entries (isrLineIndex c.scanLine P) = some c.dest) ∧
      (∀ j : Nat, 1 ≤ j → j ≤ ds.length + 1 →
        ∃ sj, interrupts ((s.s_frameResetDesc :: ds).take j) s = some sj ∧
          VSync sj = decide (j = ds.length + 1)) := by
  have hpow : (2 : Int) ≤ 2 ^ k := by
    obtain ⟨j, rfl⟩ : ∃ j, k = j + 1 := ⟨k - 1, by omega⟩
    have : (0 : Int) < 2 ^ j := by positivity
    rw [pow_succ]; omega
  have hP2 : 2 ≤ P := by rw [hP]; exact hpow
  have hh : 0 < P / 2 := by omega
  have hHn : H = ((ds.length : Int) + 1) * (P / 2) := by
    rw [hlen]; exact (Int.ediv_mul_cancel hdiv).symm
  -- the frame as a whole
  have hHmax : H ≤ 2147483647 := ha.1.2
  have hlen0 : (0 : Int) ≤ (ds.length : Int) := Int.ofNat_nonneg _
  have hhalfH : P / 2 ≤ H := by
    have : (ds.length : Int) * (P / 2) ≥ 0 := Int.mul_nonneg hlen0 (by omega)
    rw [hHn]; linarith
  obtain ⟨s1, h1, _, _, _, hr1⟩ := interrupts_frame P H (by omega) hH s ha ds hds
    (by rw [← hHn]; exact hHmax)
  -- the recorded calls
  obtain ⟨s0, dest, h0, ha0, _, hl0, _, hc0, hdest0, hcalls0⟩ :=
    interrupt_spec P H s s.s_frameResetDesc tbl (by omega) hH ha htbl (by simp)
      (by simp only [if_true]; omega)
  simp only [if_true] at hc0 hdest0 hcalls0
  obtain ⟨s1', new', h1', _, _, hcalls1, hall, _⟩ := invocations_calls P H (by omega) hH tbl
    (ds.map some) s0 ha0 (hl0.trans htbl)
  have hs1 : s1' = s1 := by
    rw [interrupts_cons _ ds s s0 h0, interrupts_eq_invocations, h1'] at h1
    exact Option.some.inj h1
  subst hs1
  have hcalls : s1'.calls = s.calls ++ (⟨s.m_drawScanlineArg, dest, (0 + P / 2) % H⟩ :: new') := by
    rw [hcalls1, hcalls0, List.append_assoc]; rfl
  have hseq : (⟨s.m_drawScanlineArg, dest, (0 + P / 2) % H⟩ :: new').map
      (fun c => c.scanLine) =
      (List.range ds.length).map (fun (i : Nat) => ((i : Int) + 1) * (P / 2)) ++ [0] := by
    have e := hr1
    simp only [renderedScanlines] at e
    rw [hcalls, List.map_append] at e
    rw [List.append_cancel_left e]
    exact frame_sequence ds.length (P / 2) H hh hHn
  obtain ⟨hperm, hnodup⟩ := frame_sequence_perm ds.length (P / 2) hh
  refine ⟨s1', _, h1, hcalls, hseq, ?_, ?_, ?_, ?_⟩
  · rw [hseq]; exact hperm
  · rw [hseq]; exact hnodup
  · intro c hc
    have hmem : c.scanLine ∈ (⟨s.m_drawScanlineArg, dest, (0 + P / 2) % H⟩ :: new').map
        (fun c => c.scanLine) := List.mem_map.mpr ⟨c, hc, rfl⟩
    rw [hseq] at hmem
    have hmult : 0 ≤ c.scanLine ∧ P / 2 ∣ c.scanLine := by
      rcases List.mem_append.mp hmem with hm | hm
      · obtain ⟨i, _, hi⟩ := List.mem_map.mp hm
        rw [← hi]
        exact ⟨Int.mul_nonneg (by omega) (by omega), Dvd.intro_left _ rfl⟩
      · rw [List.mem_singleton.mp hm]
        exact ⟨le_refl 0, Int.dvd_zero _⟩
    refine ⟨slot_of_half_multiple k P c.scanLine hk hP hmult.1 hmult.2, ?_⟩
    rcases List.mem_cons.mp hc with hc' | hc'
    · rw [hc']; exact hdest0
    · exact (hall c hc').2.2
  · intro j hj1 hjn
    have htake : (s.s_frameResetDesc :: ds).take j = s.s_frameResetDesc :: ds.take (j - 1) :=
      List.take_cons (by omega)
    obtain ⟨sj, hsj, _, _, hvj, _⟩ := interrupts_frame P H (by omega) hH s ha
      (ds.take (j - 1)) (fun d hd => hds d (List.mem_of_mem_take hd)) (by
        rw [List.length_take]
        have hmin : min (j - 1) ds.length = j - 1 := by omega
        rw [hmin]
        have hle : (((j - 1 : Nat) : Int) + 1) * (P / 2) ≤
            ((ds.length : Int) + 1) * (P / 2) :=
          Int.mul_le_mul_of_nonneg_right (by omega) (by omega)
        rw [← hHn] at hle
        omega)
    refine ⟨sj, by rw [htake]; exact hsj, ?_⟩
    rw [VSync, hvj, List.length_take]
    have hmin : min (j - 1) ds.length = j - 1 := by omega
    rw [hmin]
    have hcast : (((j - 1 : Nat) : Int) + 1) = (j : Int) := by omega
    rw [hcast, hHn]
    apply decide_eq_decide.mpr
    constructor
    · intro hle
      have := Int.le_of_mul_le_mul_right hle hh
      omega
    · intro hje
      rw [hje]
      push_cast
      exact le_refl _

/-- C13 evaluated on the example controller (`P = 2`, `H = 6`): the six interrupts of a
frame render the scanlines `1, 2, 3, 4, 5, 0`. -/
theorem C13_full_frame_witness :
    ∃ s1 new, interrupts (exampleArmed.s_frameResetDesc :: [101, 102, 103, 104, 105])
        exampleArmed = some s1 ∧
      s1.calls = exampleArmed.calls ++ new ∧
      new.map (fun c => c.scanLine) =
        (List.range [101, 102, 103, 104, 105].length).map
          (fun (i : Nat) => ((i : Int) + 1) * (2 / 2)) ++ [0] ∧
      List.Perm (new.map (fun c => c.scanLine))
        ((List.range ([101, 102, 103, 104, 105].length + 1)).map
          (fun (i : Nat) => (i : Int) * (2 / 2))) ∧
      (new.map (fun c => c.scanLine)).Nodup ∧
      (∀ c ∈ new, (isrLineIndex c.scanLine 2 = 0 ∨ isrLineIndex c.scanLine 2 = 2 / 2) ∧
        tableAt [25, 29] (isrLineIndex c.scanLine 2) = some c.dest) ∧
      (∀ j : Nat, 1 ≤ j → j ≤ [101, 102, 103, 104, 105].length + 1 →
        ∃ sj, interrupts ((exampleArmed.s_frameResetDesc ::
            [101, 102, 103, 104, 105]).take j) exampleArmed = some sj ∧
          VSync sj = decide (j = [101, 102, 103, 104, 105].length + 1)) :=
  C13_full_frame 1 2 6 (by decide) (by decide) (by decide) ⟨6, by decide⟩ exampleArmed
    { addr := 16, entries := [25, 29] } Armed_exampleArmed rfl [101, 102, 103, 104, 105]
    (by decide) (by decide)

end fabgl
